import Mathlib

/-!
Verification of the human-behavior-simulation core of the
`linkedin-automation` repository: a shallow embedding of the stealth
package (mouse movement, typing, scrolling, scheduling) and the
configuration validation, with theorems checking the specification's
claims against the embedded code.

Modelling conventions:
* Go `float64` values are modelled as exact rationals (`ℚ`).
* Go `int` values are modelled as `ℤ`; Go integer division truncates
  toward zero, which is `Int.tdiv`.
* The per-engine `*rand.Rand` source is modelled by streams of uniform
  draws in `[0,1)`, one stream per call site.  `r.Float64()` is the draw
  itself; `r.Intn(n)` is `⌊u·n⌋` for a draw `u`, which ranges over
  `{0,…,n−1}` exactly when `n > 0` and panics (modelled as `none`) when
  `n ≤ 0`, matching Go's `rand.Intn`.
* Transcendental library functions (`math.Sqrt`, `math.Cos`, `math.Sin`,
  `math.Atan2`, `math.Pi`) are abstract parameters of the embedding,
  constrained only by `sqrt 0 = 0` (true of `math.Sqrt`).
-/

/-- A uniform draw from `[0,1)`, the value produced by one call to
`rand.Float64()` (or feeding one `rand.Intn`). -/
def U01 : Type := {q : ℚ // 0 ≤ q ∧ q < 1}

/-- A concrete draw with value `q`, for witnesses and counterexamples. -/
def mkU (q : ℚ) (h1 : 0 ≤ q) (h2 : q < 1) : U01 := ⟨q, h1, h2⟩

/-- The draw with value `0`. -/
def u0 : U01 := mkU 0 (by norm_num) (by norm_num)

/-- Go `rand.Intn(n)`: returns a value in `[0,n)` when `n > 0`,
panics (`none`) when `n ≤ 0`. -/
def intn (n : ℤ) (u : U01) : Option ℤ :=
  if n ≤ 0 then none else some ⌊u.val * (n : ℚ)⌋

/-- Go `rand.Intn(n)` at a call site whose argument is a positive
literal, where the panic branch is impossible. -/
def intnP (n : ℤ) (u : U01) : ℤ := ⌊u.val * (n : ℚ)⌋

/-- Go's `int(x)` conversion from `float64`: truncation toward zero. -/
def truncQ (q : ℚ) : ℤ := if 0 ≤ q then ⌊q⌋ else ⌈q⌉

theorem intn_eq_some {n : ℤ} {u : U01} {k : ℤ} (h : intn n u = some k) :
    0 < n ∧ 0 ≤ k ∧ k < n := by
  unfold intn at h
  split at h
  · exact absurd h (by simp)
  · rename_i hn
    push_neg at hn
    have hk : k = ⌊u.val * (n : ℚ)⌋ := by
      simpa using h.symm
    subst hk
    refine ⟨hn, ?_, ?_⟩
    · exact Int.floor_nonneg.mpr (mul_nonneg u.property.1 (by exact_mod_cast hn.le))
    · have hlt : u.val * (n : ℚ) < (n : ℚ) := by
        have := u.property.2
        calc u.val * (n : ℚ) < 1 * (n : ℚ) := by
              exact mul_lt_mul_of_pos_right this (by exact_mod_cast hn)
          _ = (n : ℚ) := one_mul _
      exact Int.floor_lt.mpr (by exact_mod_cast hlt)

theorem intn_isSome {n : ℤ} (hn : 0 < n) (u : U01) : (intn n u).isSome := by
  unfold intn
  simp [not_le.mpr hn]

theorem intn_none {n : ℤ} (hn : n ≤ 0) (u : U01) : intn n u = none := by
  unfold intn
  simp [hn]

theorem intnP_bounds {n : ℤ} (hn : 0 < n) (u : U01) :
    0 ≤ intnP n u ∧ intnP n u < n := by
  unfold intnP
  constructor
  · exact Int.floor_nonneg.mpr (mul_nonneg u.property.1 (by exact_mod_cast hn.le))
  · have hlt : u.val * (n : ℚ) < (n : ℚ) := by
      calc u.val * (n : ℚ) < 1 * (n : ℚ) :=
            mul_lt_mul_of_pos_right u.property.2 (by exact_mod_cast hn)
        _ = (n : ℚ) := one_mul _
    exact Int.floor_lt.mpr (by exact_mod_cast hlt)

/-! ## Keystroke cadence simulator (internal/stealth/typing.go) -/

/-- The `Typer` struct of `typing.go` (random source kept external). -/
structure Typer where
  wpmMin : ℤ
  wpmMax : ℤ
  typoProbability : ℚ
  pauseProbability : ℚ
deriving DecidableEq

/-- `NewTyper` of `typing.go`: stores the fields unchanged; it has no
error return and performs no validation. -/
def NewTyper (wpmMin wpmMax : ℤ) (typoProbability pauseProbability : ℚ) : Typer :=
  { wpmMin := wpmMin
    wpmMax := wpmMax
    typoProbability := typoProbability
    pauseProbability := pauseProbability }

/-- Per-call-site draw streams consumed by `TypeText`, indexed by the
character position where the call occurs. -/
structure TypingDraws where
  wpmU : U01
  pauseU : ℕ → U01
  pauseAmtU : ℕ → U01
  typoU : ℕ → U01
  typoCharU : ℕ → U01
  typoDelayU : ℕ → U01
  bsDelayU : ℕ → U01
  charJitterU : ℕ → U01
  punctU : ℕ → U01
  spaceU : ℕ → U01

/-- One step of the keystroke plan produced by `TypeText`: each
keyboard action carries the delay slept after it, and the extra sleeps
appear as pause steps. -/
inductive TypeStep where
  | prePause (ms : ℤ)
  | typoChar (c : Char) (delay : ℤ)
  | backspace (delay : ℤ)
  | keyChar (c : Char) (delay : ℤ)
  | postPause (ms : ℤ)
deriving DecidableEq, Repr

/-- True exactly on real-character emissions. -/
def TypeStep.isKeyChar : TypeStep → Bool
  | .keyChar _ _ => true
  | _ => false

/-- True exactly on wrong-character (typo) emissions. -/
def TypeStep.isTypo : TypeStep → Bool
  | .typoChar _ _ => true
  | _ => false

/-- The alphabet used by `getRandomChar` in `typing.go`. -/
def typoAlphabet : List Char := "abcdefghijklmnopqrstuvwxyz".toList

/-- `getRandomChar` of `typing.go`: a uniformly drawn lowercase letter. -/
def getRandomChar (u : U01) : Char :=
  typoAlphabet.getD (intnP 26 u).toNat 'a'

/-- The loop body of `TypeText` for character `c` at index `i`:
optional pre-pause, optional typo+backspace pair (only for `i > 0`),
the real character, then optional punctuation/space pauses.  Fails
(`none`) exactly where `rand.Intn` receives a nonpositive argument. -/
def typeCharSteps (t : Typer) (d : TypingDraws) (msPerChar : ℤ) (i : ℕ)
    (c : Char) : Option (List TypeStep) := do
  let pre : List TypeStep :=
    if (d.pauseU i).val < t.pauseProbability then
      [TypeStep.prePause (200 + intnP 500 (d.pauseAmtU i))]
    else []
  let typo : List TypeStep :=
    if (d.typoU i).val < t.typoProbability ∧ 0 < i then
      [TypeStep.typoChar (getRandomChar (d.typoCharU i))
          (msPerChar + intnP 100 (d.typoDelayU i)),
       TypeStep.backspace (msPerChar + intnP 100 (d.bsDelayU i))]
    else []
  let j ← intn (msPerChar.tdiv 2) (d.charJitterU i)
  let post1 : List TypeStep :=
    if c = '.' ∨ c = ',' ∨ c = '!' ∨ c = '?' then
      [TypeStep.postPause (100 + intnP 300 (d.punctU i))]
    else []
  let post2 : List TypeStep :=
    if c = ' ' then
      [TypeStep.postPause (50 + intnP 150 (d.spaceU i))]
    else []
  return pre ++ typo ++
    [TypeStep.keyChar c (msPerChar + j - msPerChar.tdiv 4)] ++ post1 ++ post2

/-- The character loop of `TypeText`, starting at index `i`. -/
def typePlanAux (t : Typer) (d : TypingDraws) (msPerChar : ℤ) :
    ℕ → List Char → Option (List TypeStep)
  | _, [] => some []
  | i, c :: cs => do
      let s ← typeCharSteps t d msPerChar i c
      let rest ← typePlanAux t d msPerChar (i + 1) cs
      return s ++ rest

/-- The keystroke plan of `TypeText` in `typing.go`: draw a wpm in
`[wpmMin, wpmMax]`, derive `msPerChar = 60000 / (wpm·5)`, then emit the
per-character steps.  `none` models a `rand.Intn` panic (inverted wpm
range, or nonpositive jitter bound) or division by zero. -/
def typePlan (t : Typer) (d : TypingDraws) (text : List Char) :
    Option (List TypeStep) := do
  let wj ← intn (t.wpmMax - t.wpmMin + 1) d.wpmU
  let wpm := t.wpmMin + wj
  let cpm := wpm * 5
  if cpm = 0 then none
  else typePlanAux t d ((60000 : ℤ).tdiv cpm) 0 text

/-! ## Session/activity scheduler (config.go, `Scheduler`) -/

/-- A wall-clock instant in the scheduler's configured timezone:
an absolute day number plus hour and minute of day.  The weekday
follows Go's `time.Weekday` numbering (`0` = Sunday … `6` = Saturday)
via `day % 7`, so day `0` is a Sunday. -/
structure LocalTime where
  day : ℤ
  hour : ℤ
  minute : ℤ
deriving DecidableEq, Repr

/-- Go `time.Date(Y, M, day, hour, 0, 0, 0, loc)` as used by
`WaitForBusinessHours`: a day-and-start-hour instant (minute zero),
normalising an out-of-range hour into the day as `time.Date` does. -/
def mkDate (day hour : ℤ) : LocalTime :=
  ⟨day + hour.fdiv 24, hour.emod 24, 0⟩

/-- `now.Weekday() == time.Saturday`. -/
def LocalTime.isSaturday (t : LocalTime) : Bool := t.day.emod 7 = 6

/-- `now.Weekday() == time.Sunday`. -/
def LocalTime.isSunday (t : LocalTime) : Bool := t.day.emod 7 = 0

/-- The `Scheduler` struct of `config.go` (timezone already resolved,
random source external). -/
structure Scheduler where
  businessHoursStart : ℤ
  businessHoursEnd : ℤ
  weekendActivity : Bool
  breakDurationMin : ℤ
  breakDurationMax : ℤ
  breakProbability : ℚ
deriving DecidableEq

/-- `IsBusinessHours` of `config.go`, evaluated at an explicit local
time: false on Saturday/Sunday when weekend activity is disabled,
otherwise true iff the hour lies in `[businessHoursStart,
businessHoursEnd)`. -/
def IsBusinessHours (s : Scheduler) (t : LocalTime) : Bool :=
  if ¬s.weekendActivity ∧ (t.isSaturday ∨ t.isSunday) then false
  else s.businessHoursStart ≤ t.hour ∧ t.hour < s.businessHoursEnd

/-- The loop body of `WaitForBusinessHours`: the wake-up target
computed from `now`.  Saturday jumps two days and Sunday one day —
regardless of `weekendActivity`; a weekday before the start hour
targets the same day, otherwise the next day. -/
def nextBusinessTime (s : Scheduler) (t : LocalTime) : LocalTime :=
  if t.isSaturday then mkDate (t.day + 2) s.businessHoursStart
  else if t.isSunday then mkDate (t.day + 1) s.businessHoursStart
  else if t.hour < s.businessHoursStart then mkDate t.day s.businessHoursStart
  else mkDate (t.day + 1) s.businessHoursStart

/-- `WaitForBusinessHours` of `config.go`: repeatedly sleep until the
computed target (after which the local time is that target) while
outside business hours.  `fuel` bounds the iteration count so the loop
is a function; `none` means the fuel ran out. -/
def WaitForBusinessHours (s : Scheduler) : ℕ → LocalTime → Option LocalTime
  | 0, _ => none
  | fuel + 1, t =>
      if IsBusinessHours s t then some t
      else WaitForBusinessHours s fuel (nextBusinessTime s t)

/-! ## Scroll pattern simulator (`Scroller`) -/

/-- The `Scroller` struct (random source external). -/
structure Scroller where
  speedMin : ℤ
  speedMax : ℤ
  scrollBackProbability : ℚ
  pauseProbability : ℚ
deriving DecidableEq

/-- `NewScroller`: stores the fields unchanged; no error return, no
validation. -/
def NewScroller (speedMin speedMax : ℤ) (scrollBackProb pauseProb : ℚ) : Scroller :=
  { speedMin := speedMin
    speedMax := speedMax
    scrollBackProbability := scrollBackProb
    pauseProbability := pauseProb }

/-- Per-call-site draw streams consumed by one `ScrollDown`/`ScrollUp`
call, indexed by chunk number. -/
structure ScrollDraws where
  chunksU : U01
  amtU : ℕ → U01
  speedU : ℕ → U01
  pauseU : ℕ → U01
  pauseAmtU : ℕ → U01
  backU : ℕ → U01
  backAmtU : ℕ → U01
  backDelayU : ℕ → U01

/-- One chunk of a scroll plan: the emitted scroll delta, the delay
slept after it, the optional extra pause, and the optional back-scroll
sub-step `(backDelta, settleDelay)` as emitted by the code. -/
structure ScrollChunk where
  delta : ℤ
  delay : ℤ
  pause : Option ℤ
  back : Option (ℤ × ℤ)
deriving DecidableEq, Repr

/-- The loop body of `ScrollDown` for chunk `i` given the computed
`chunkSize`: jittered delta, speed delay in `[speedMin, speedMax]`,
optional 500–1999 ms pause, optional back-scroll of up to half the
chunk's delta followed by a 200–499 ms settle delay.  `none` models a
`rand.Intn` panic on a nonpositive argument. -/
def scrollDownChunk (s : Scroller) (d : ScrollDraws) (chunkSize : ℤ)
    (i : ℕ) : Option ScrollChunk := do
  let j ← intn (chunkSize.tdiv 2) (d.amtU i)
  let scrollAmount := chunkSize + j - chunkSize.tdiv 4
  let sp ← intn (s.speedMax - s.speedMin + 1) (d.speedU i)
  let pause : Option ℤ :=
    if (d.pauseU i).val < s.pauseProbability then
      some (500 + intnP 1500 (d.pauseAmtU i))
    else none
  let back ←
    if (d.backU i).val < s.scrollBackProbability then do
      let b ← intn (scrollAmount.tdiv 2) (d.backAmtU i)
      pure (some (-b, 200 + intnP 300 (d.backDelayU i)))
    else pure (none : Option (ℤ × ℤ))
  return { delta := scrollAmount
           delay := s.speedMin + sp
           pause := pause
           back := back }

/-- `ScrollDown` of the scroller file: split `distance` into `5 + Intn(10)`
chunks of size `distance / chunks` and emit the per-chunk steps. -/
def ScrollDown (s : Scroller) (d : ScrollDraws) (distance : ℤ) :
    Option (List ScrollChunk) :=
  let chunks := 5 + (intnP 10 d.chunksU).toNat
  let chunkSize := distance.tdiv (chunks : ℤ)
  (List.range chunks).mapM (scrollDownChunk s d chunkSize)

/-- The loop body of `ScrollUp` for chunk `i`: like the down case but
the emitted delta is negated and there is no back-scroll branch. -/
def scrollUpChunk (s : Scroller) (d : ScrollDraws) (chunkSize : ℤ)
    (i : ℕ) : Option ScrollChunk := do
  let j ← intn (chunkSize.tdiv 2) (d.amtU i)
  let scrollAmount := chunkSize + j - chunkSize.tdiv 4
  let sp ← intn (s.speedMax - s.speedMin + 1) (d.speedU i)
  let pause : Option ℤ :=
    if (d.pauseU i).val < s.pauseProbability then
      some (500 + intnP 1500 (d.pauseAmtU i))
    else none
  return { delta := -scrollAmount
           delay := s.speedMin + sp
           pause := pause
           back := none }

/-- `ScrollUp`: chunked like `ScrollDown`, deltas negated. -/
def ScrollUp (s : Scroller) (d : ScrollDraws) (distance : ℤ) :
    Option (List ScrollChunk) :=
  let chunks := 5 + (intnP 10 d.chunksU).toNat
  let chunkSize := distance.tdiv (chunks : ℤ)
  (List.range chunks).mapM (scrollUpChunk s d chunkSize)

/-! ## Motion path generator (`MouseMover`) -/

/-- A 2D point, as in the mouse-mover file. -/
structure Point where
  x : ℚ
  y : ℚ
deriving DecidableEq, Repr

/-- The transcendental `math` functions used by the mouse mover, kept
abstract; `sqrt_zero` records that `math.Sqrt(0) = 0`. -/
structure RealFns where
  sqrt : ℚ → ℚ
  cos : ℚ → ℚ
  sin : ℚ → ℚ
  atan2 : ℚ → ℚ → ℚ
  pi : ℚ
  sqrt_zero : sqrt 0 = 0

/-- The `MouseMover` profile fields (page handle and random source
external). -/
structure MouseMover where
  bezierPoints : ℕ
  speedVariation : ℚ
  overshootProb : ℚ
  microCorrectionProb : ℚ

/-- `NewMouseMover`: stores the fields unchanged; no error return, no
validation. -/
def NewMouseMover (bezierPoints : ℕ) (speedVariation overshootProb microCorrectionProb : ℚ) :
    MouseMover :=
  { bezierPoints := bezierPoints
    speedVariation := speedVariation
    overshootProb := overshootProb
    microCorrectionProb := microCorrectionProb }

/-- Per-call-site draw streams for one `moveToPoint` call. -/
structure MotionDraws where
  ctrlU : ℕ → U01
  numPtsU : U01
  overshootU : U01
  ovDistU : U01
  ovAngleU : U01
  baseU : ℕ → U01
  varU : ℕ → U01
  microU : ℕ → U01
  microXU : ℕ → U01
  microYU : ℕ → U01

/-- `binomialCoefficient`'s multiply/divide loop in exact arithmetic:
`result *= n−i; result /= i+1` for `i = 0,…,k−1`. -/
def binomAux (n k : ℕ) : ℚ :=
  (List.range k).foldl
    (fun (acc : ℚ) (i : ℕ) => acc * ((n : ℚ) - (i : ℚ)) / ((i : ℚ) + 1)) 1

/-- `binomialCoefficient` of the mouse-mover file. -/
def binomialCoefficient (n k : ℕ) : ℚ :=
  if k > n then 0
  else if k = 0 ∨ k = n then 1
  else binomAux n k

/-- `bezierPoint` of the mouse-mover file: the Bernstein-weighted sum
of the control points at parameter `t` (out-of-range indices read the
zero point, which the loop never does). -/
def bezierPoint (cps : List Point) (t : ℚ) : Point :=
  let n := cps.length - 1
  { x := ∑ i ∈ Finset.range (n + 1),
      binomialCoefficient n i * (1 - t) ^ (n - i) * t ^ i * (cps.getD i ⟨0, 0⟩).x
    y := ∑ i ∈ Finset.range (n + 1),
      binomialCoefficient n i * (1 - t) ^ (n - i) * t ^ i * (cps.getD i ⟨0, 0⟩).y }

/-- The control-point array built by `generateBezierPath`: slot `0`
gets `start`, slot `bezierPoints−1` gets `end` (written second, so it
wins when the two coincide), and each interior slot is the linear
interpolation displaced perpendicular to the line by a random offset
of at most a fifth of the distance. -/
def controlPoints (fn : RealFns) (m : MouseMover) (d : MotionDraws)
    (start finish : Point) : List Point :=
  (List.range m.bezierPoints).map fun i =>
    if i = m.bezierPoints - 1 then finish
    else if i = 0 then start
    else
      let t : ℚ := (i : ℚ) / ((m.bezierPoints : ℚ) - 1)
      let x := start.x + (finish.x - start.x) * t
      let y := start.y + (finish.y - start.y) * t
      let distance := fn.sqrt ((finish.x - start.x) ^ 2 + (finish.y - start.y) ^ 2)
      let maxOffset := distance * (1 / 5)
      let offset := ((d.ctrlU i).val * 2 - 1) * maxOffset
      let angle := fn.atan2 (finish.y - start.y) (finish.x - start.x) + fn.pi / 2
      { x := x + offset * fn.cos angle, y := y + offset * fn.sin angle }

/-- `generateBezierPath`: sample `20 + Intn(30)` points of the Bézier
curve uniformly in `t ∈ [0,1]`.  `none` models the index-out-of-range
panic of `controlPoints[0] = start` when the profile has zero control
points. -/
def generateBezierPath (fn : RealFns) (m : MouseMover) (d : MotionDraws)
    (start finish : Point) : Option (List Point) :=
  if m.bezierPoints = 0 then none
  else
    let cps := controlPoints fn m d start finish
    let numPoints := 20 + (intnP 30 d.numPtsU).toNat
    some ((List.range numPoints).map fun (i : ℕ) =>
      bezierPoint cps ((i : ℚ) / ((numPoints : ℚ) - 1)))

/-- `generateOvershoot`: a point 10–40 units from the target at a
random angle, then the target again. -/
def generateOvershoot (fn : RealFns) (d : MotionDraws) (target : Point) :
    List Point :=
  let overshootDistance := 10 + d.ovDistU.val * 30
  let angle := d.ovAngleU.val * 2 * fn.pi
  [{ x := target.x + overshootDistance * fn.cos angle
     y := target.y + overshootDistance * fn.sin angle },
   target]

/-- One event of a motion plan: a pointer move or a sleep (ms; halves
of odd millisecond delays are exact in Go's `time.Duration`, hence `ℚ`). -/
inductive PathEvent where
  | moveTo (p : Point) : PathEvent
  | wait (ms : ℚ) : PathEvent
deriving DecidableEq, Repr

/-- The loop body of `moveToPoint` at index `i` of a path of length
`len`: compute the step delay, move to the point, then — for interior
indices of the (possibly overshoot-extended) path, with probability
`microCorrectionProb` — move to a ±2-jittered point and sleep half the
delay, and finally sleep the delay. -/
def stepEvents (m : MouseMover) (d : MotionDraws) (len : ℕ) (i : ℕ)
    (p : Point) : List PathEvent :=
  let baseDelay : ℤ := 5 + intnP 10 (d.baseU i)
  let variation : ℤ :=
    truncQ ((baseDelay : ℚ) * m.speedVariation * ((d.varU i).val * 2 - 1))
  let delay : ℤ := baseDelay + variation
  [PathEvent.moveTo p] ++
  (if 0 < i ∧ i < len - 1 ∧ (d.microU i).val < m.microCorrectionProb then
    [PathEvent.moveTo { x := p.x + ((d.microXU i).val * 4 - 2)
                        y := p.y + ((d.microYU i).val * 4 - 2) },
     PathEvent.wait ((delay : ℚ) / 2)]
  else []) ++
  [PathEvent.wait (delay : ℚ)]

/-- `moveToPoint` of the mouse-mover file: generate the Bézier path,
append the overshoot tail with probability `overshootProb`, then emit
the per-point events. -/
def moveToPoint (fn : RealFns) (m : MouseMover) (d : MotionDraws)
    (start finish : Point) : Option (List PathEvent) := do
  let path ← generateBezierPath fn m d start finish
  let path :=
    if d.overshootU.val < m.overshootProb then
      path ++ generateOvershoot fn d finish
    else path
  return path.enum.flatMap fun ip => stepEvents m d path.length ip.1 ip.2

/-- `getCurrentPosition` of the mouse-mover file: unconditionally the
origin with a nil error (`false` = no error). -/
def getCurrentPosition : Point × Bool := (⟨0, 0⟩, false)

/-- An element bounding box as returned by the geometry query. -/
structure Box where
  x : ℚ
  y : ℚ
  w : ℚ
  h : ℚ

/-- `MoveToElement`: pick a random target inside the element's box,
take the current position from `getCurrentPosition` — falling back to
a random point only if it reported an error — and move there. -/
def MoveToElement (fn : RealFns) (m : MouseMover) (d : MotionDraws)
    (box : Box) (tU tV fU fV : U01) : Option (List PathEvent) :=
  let target : Point := { x := box.x + tU.val * box.w, y := box.y + tV.val * box.h }
  let currentPos : Point :=
    if getCurrentPosition.2 then { x := fU.val * 1000, y := fV.val * 600 }
    else getCurrentPosition.1
  moveToPoint fn m d currentPos target

/-! ## Configuration validation (internal/config/config.go) -/

/-- The numeric fields of `SearchConfig` (filter lists omitted; they
play no role in validation). -/
structure SearchConfig where
  maxResults : ℤ
  paginationDelayMin : ℤ
  paginationDelayMax : ℤ

/-- The numeric fields of `ConnectionsConfig`. -/
structure ConnectionsConfig where
  dailyLimit : ℤ
  hourlyLimit : ℤ
  noteCharacterLimit : ℤ
  cooldownBetweenRequestsMin : ℤ
  cooldownBetweenRequestsMax : ℤ

/-- The numeric fields of `MessagingConfig`. -/
structure MessagingConfig where
  dailyLimit : ℤ
  hourlyLimit : ℤ
  cooldownBetweenMessagesMin : ℤ
  cooldownBetweenMessagesMax : ℤ

/-- `MouseConfig`. -/
structure MouseConfig where
  bezierPoints : ℤ
  speedVariation : ℚ
  overshootProbability : ℚ
  microCorrectionProbability : ℚ

/-- `TimingConfig`. -/
structure TimingConfig where
  actionDelayMin : ℤ
  actionDelayMax : ℤ
  thinkTimeMin : ℤ
  thinkTimeMax : ℤ
  readingSpeedWPM : ℤ

/-- `TypingConfig`. -/
structure TypingConfig where
  wpmMin : ℤ
  wpmMax : ℤ
  typoProbability : ℚ
  pauseProbability : ℚ

/-- `ScrollingConfig`. -/
structure ScrollingConfig where
  speedMin : ℤ
  speedMax : ℤ
  scrollBackProbability : ℚ
  pauseProbability : ℚ

/-- `SchedulingConfig`. -/
structure SchedulingConfig where
  businessHoursStart : ℤ
  businessHoursEnd : ℤ
  timezone : String
  weekendActivity : Bool
  breakDurationMin : ℤ
  breakDurationMax : ℤ
  breakProbability : ℚ

/-- `StealthConfig`. -/
structure StealthConfig where
  mouse : MouseConfig
  timing : TimingConfig
  typing : TypingConfig
  scrolling : ScrollingConfig
  scheduling : SchedulingConfig

/-- The fields of `BrowserConfig` that validation reads. -/
structure BrowserConfig where
  headless : Bool
  userAgents : List String
  timeoutSeconds : ℤ

/-- The application `Config` (logging section omitted; it is not
validated). -/
structure Config where
  search : SearchConfig
  connections : ConnectionsConfig
  messaging : MessagingConfig
  stealth : StealthConfig
  browser : BrowserConfig

/-- `validateConfig` of `config.go`, with `time.LoadLocation`
abstracted to a resolvability predicate: it checks positivity of four
limits, non-emptiness of the user-agent list, and the timezone — and
nothing else. -/
def validateConfig (resolvable : String → Bool) (c : Config) :
    Except String Unit :=
  if c.search.maxResults ≤ 0 then
    Except.error "search.max_results must be greater than 0"
  else if c.connections.dailyLimit ≤ 0 then
    Except.error "connections.daily_limit must be greater than 0"
  else if c.messaging.dailyLimit ≤ 0 then
    Except.error "messaging.daily_limit must be greater than 0"
  else if c.browser.timeoutSeconds ≤ 0 then
    Except.error "browser.timeout_seconds must be greater than 0"
  else if c.browser.userAgents.length = 0 then
    Except.error "browser.user_agents must contain at least one user agent"
  else if ¬resolvable c.stealth.scheduling.timezone then
    Except.error "invalid timezone"
  else Except.ok ()

/-- `NewScheduler` of `config.go`: resolves the timezone and stores
the fields; the only failure is an unresolvable timezone. -/
def NewScheduler (resolvable : String → Bool)
    (businessHoursStart businessHoursEnd : ℤ) (timezone : String)
    (weekendActivity : Bool) (breakDurationMin breakDurationMax : ℤ)
    (breakProbability : ℚ) : Option Scheduler :=
  if resolvable timezone then
    some { businessHoursStart := businessHoursStart
           businessHoursEnd := businessHoursEnd
           weekendActivity := weekendActivity
           breakDurationMin := breakDurationMin
           breakDurationMax := breakDurationMax
           breakProbability := breakProbability }
  else none

/-! ## Scheduler theorems (C1) -/

theorem mkDate_small {d h : ℤ} (h0 : 0 ≤ h) (h24 : h < 24) :
    mkDate d h = ⟨d, h, 0⟩ := by
  unfold mkDate
  have hf : h.fdiv 24 = 0 := by
    rw [Int.fdiv_eq_ediv _ (by norm_num)]
    exact Int.ediv_eq_zero_of_lt h0 h24
  have hm : h.emod 24 = h := Int.emod_eq_of_lt h0 h24
  rw [hf, hm, add_zero]

theorem isSaturday_iff (t : LocalTime) : t.isSaturday = true ↔ t.day % 7 = 6 := by
  unfold LocalTime.isSaturday
  rw [decide_eq_true_eq]
  exact Iff.rfl

theorem isSunday_iff (t : LocalTime) : t.isSunday = true ↔ t.day % 7 = 0 := by
  unfold LocalTime.isSunday
  rw [decide_eq_true_eq]
  exact Iff.rfl

theorem isSaturday_false_iff (t : LocalTime) :
    t.isSaturday = false ↔ ¬t.day % 7 = 6 := by
  rw [← isSaturday_iff]
  cases t.isSaturday <;> simp

theorem isSunday_false_iff (t : LocalTime) :
    t.isSunday = false ↔ ¬t.day % 7 = 0 := by
  rw [← isSunday_iff]
  cases t.isSunday <;> simp

theorem IsBusinessHours_true_iff (s : Scheduler) (t : LocalTime) :
    IsBusinessHours s t = true ↔
      (s.weekendActivity = true ∨ (¬t.day % 7 = 6 ∧ ¬t.day % 7 = 0)) ∧
      s.businessHoursStart ≤ t.hour ∧ t.hour < s.businessHoursEnd := by
  unfold IsBusinessHours
  split
  · rename_i hcond
    obtain ⟨hw, hd⟩ := hcond
    simp only [Bool.not_eq_true] at hw
    constructor
    · intro h
      exact absurd h (by simp)
    · rintro ⟨hperm, _⟩
      rcases hperm with hact | ⟨hs6, hs0⟩
      · rw [hact] at hw
        exact absurd hw (by simp)
      · rcases hd with hsat | hsun
        · exact absurd ((isSaturday_iff t).mp hsat) hs6
        · exact absurd ((isSunday_iff t).mp hsun) hs0
  · rename_i hcond
    push_neg at hcond
    constructor
    · intro h
      simp only [decide_eq_true_eq] at h
      refine ⟨?_, h⟩
      by_cases hw : s.weekendActivity = true
      · exact Or.inl hw
      · have hd := hcond (by simpa using hw)
        push_neg at hd
        refine Or.inr ⟨?_, ?_⟩
        · exact (isSaturday_false_iff t).mp (by simpa using hd.1)
        · exact (isSunday_false_iff t).mp (by simpa using hd.2)
    · rintro ⟨_, h1, h2⟩
      simp [h1, h2]

/-- The claim fails: with `weekendActivity = true` and a window of 9–17,
Saturday 08:00 (day 6 is a Saturday) is outside the window, yet the
computed next start is Monday 09:00 (day 8), two days later — not the
same Saturday at 09:00 as the claim requires. -/
theorem C1_counterexample :
    IsBusinessHours ⟨9, 17, true, 15, 30, (1:ℚ)/2⟩ ⟨6, 8, 0⟩ = false ∧
    nextBusinessTime ⟨9, 17, true, 15, 30, (1:ℚ)/2⟩ ⟨6, 8, 0⟩ = ⟨8, 9, 0⟩ ∧
    WaitForBusinessHours ⟨9, 17, true, 15, 30, (1:ℚ)/2⟩ 5 ⟨6, 8, 0⟩ = some ⟨8, 9, 0⟩ ∧
    (⟨8, 9, 0⟩ : LocalTime) ≠ ⟨6, 9, 0⟩ := by
  refine ⟨by decide, by decide, ?_, by decide⟩
  show WaitForBusinessHours _ 5 _ = _
  decide

theorem WFB_step_true {s : Scheduler} {t : LocalTime} {fuel : ℕ}
    (h : IsBusinessHours s t = true) :
    WaitForBusinessHours s (fuel + 1) t = some t := by
  simp [WaitForBusinessHours, h]

theorem WFB_step_false {s : Scheduler} {t : LocalTime} {fuel : ℕ}
    (h : IsBusinessHours s t = false) :
    WaitForBusinessHours s (fuel + 1) t =
      WaitForBusinessHours s fuel (nextBusinessTime s t) := by
  simp [WaitForBusinessHours, h]

/-- C1 (amended): the weekend branch of `WaitForBusinessHours` ignores
`weekendActivity` — from any Saturday the computed target is two days
later (Monday) at the start hour and from any Sunday one day later,
even when weekend activity is permitted; on a weekday before the start
hour the target is the same day at the start hour, and otherwise the
next calendar day at the start hour (even if that day is a Saturday);
iterating, the wait loop always lands inside the window within three
steps. -/
theorem C1_next_window (s : Scheduler) (t : LocalTime)
    (h0 : 0 ≤ s.businessHoursStart)
    (h1 : s.businessHoursStart < s.businessHoursEnd)
    (h2 : s.businessHoursEnd ≤ 24) :
    (t.isSaturday = true →
      nextBusinessTime s t = ⟨t.day + 2, s.businessHoursStart, 0⟩) ∧
    (t.isSunday = true →
      nextBusinessTime s t = ⟨t.day + 1, s.businessHoursStart, 0⟩) ∧
    (t.isSaturday = false → t.isSunday = false →
      t.hour < s.businessHoursStart →
      nextBusinessTime s t = ⟨t.day, s.businessHoursStart, 0⟩) ∧
    (t.isSaturday = false → t.isSunday = false →
      s.businessHoursStart ≤ t.hour →
      nextBusinessTime s t = ⟨t.day + 1, s.businessHoursStart, 0⟩) ∧
    (∃ t2, WaitForBusinessHours s 3 t = some t2 ∧ IsBusinessHours s t2 = true) := by
  have hst24 : s.businessHoursStart < 24 := lt_of_lt_of_le h1 h2
  refine ⟨?_, ?_, ?_, ?_, ?_⟩
  · intro hsat
    simp [nextBusinessTime, hsat, mkDate_small h0 hst24]
  · intro hsun
    have hns : t.isSaturday = false := by
      rw [isSaturday_false_iff]
      rw [isSunday_iff] at hsun
      omega
    simp [nextBusinessTime, hns, hsun, mkDate_small h0 hst24]
  · intro hns hnsu hlt
    simp [nextBusinessTime, hns, hnsu, hlt, mkDate_small h0 hst24]
  · intro hns hnsu hge
    simp [nextBusinessTime, hns, hnsu, not_lt.mpr hge, mkDate_small h0 hst24]
  · by_cases hw : IsBusinessHours s t = true
    · exact ⟨t, WFB_step_true hw, hw⟩
    · have hwf : IsBusinessHours s t = false := by
        revert hw
        cases IsBusinessHours s t <;> simp
      have key : ∃ D : ℤ, nextBusinessTime s t = ⟨D, s.businessHoursStart, 0⟩ ∧
          ¬D % 7 = 0 := by
        by_cases hsat : t.isSaturday = true
        · refine ⟨t.day + 2, by simp [nextBusinessTime, hsat, mkDate_small h0 hst24], ?_⟩
          rw [isSaturday_iff] at hsat
          omega
        · have hsat' : t.isSaturday = false := by
            revert hsat
            cases t.isSaturday <;> simp
          by_cases hsun : t.isSunday = true
          · refine ⟨t.day + 1,
              by simp [nextBusinessTime, hsat', hsun, mkDate_small h0 hst24], ?_⟩
            rw [isSunday_iff] at hsun
            omega
          · have hsun' : t.isSunday = false := by
              revert hsun
              cases t.isSunday <;> simp
            have hd0 : ¬t.day % 7 = 0 := (isSunday_false_iff t).mp hsun'
            have hd6 : ¬t.day % 7 = 6 := (isSaturday_false_iff t).mp hsat'
            by_cases hlt : t.hour < s.businessHoursStart
            · exact ⟨t.day,
                by simp [nextBusinessTime, hsat', hsun', hlt, mkDate_small h0 hst24], hd0⟩
            · refine ⟨t.day + 1,
                by simp [nextBusinessTime, hsat', hsun', hlt, mkDate_small h0 hst24], ?_⟩
              omega
      obtain ⟨D, hD, hD0⟩ := key
      by_cases hw1 : IsBusinessHours s (nextBusinessTime s t) = true
      · refine ⟨nextBusinessTime s t, ?_, hw1⟩
        rw [show (3 : ℕ) = 2 + 1 from rfl, WFB_step_false hwf, WFB_step_true hw1]
      · have hw1f : IsBusinessHours s (nextBusinessTime s t) = false := by
          revert hw1
          cases IsBusinessHours s (nextBusinessTime s t) <;> simp
        have hsat1 : D % 7 = 6 := by
          by_contra h6
          apply hw1
          rw [hD, IsBusinessHours_true_iff]
          exact ⟨Or.inr ⟨h6, hD0⟩, le_refl _, h1⟩
        have hsatb : (⟨D, s.businessHoursStart, 0⟩ : LocalTime).isSaturday = true := by
          rw [isSaturday_iff]
          exact hsat1
        have ht2 : nextBusinessTime s (nextBusinessTime s t) =
            ⟨D + 2, s.businessHoursStart, 0⟩ := by
          rw [hD]
          simp [nextBusinessTime, hsatb, mkDate_small h0 hst24]
        have hw2 : IsBusinessHours s ⟨D + 2, s.businessHoursStart, 0⟩ = true := by
          rw [IsBusinessHours_true_iff]
          refine ⟨Or.inr ⟨?_, ?_⟩, le_refl _, h1⟩
          · show ¬(D + 2) % 7 = 6
            omega
          · show ¬(D + 2) % 7 = 0
            omega
        refine ⟨⟨D + 2, s.businessHoursStart, 0⟩, ?_, hw2⟩
        rw [show (3 : ℕ) = 1 + 1 + 1 from rfl, WFB_step_false hwf,
          WFB_step_false hw1f, ht2, WFB_step_true hw2]

/-- Witness for C1: window 9–17, weekend activity off, Saturday 10:00
(day 6): the one-step target and the loop land on Monday 09:00. -/
theorem C1_next_window_witness :
    ((⟨6, 10, 0⟩ : LocalTime).isSaturday = true →
      nextBusinessTime ⟨9, 17, false, 15, 30, (1:ℚ)/2⟩ ⟨6, 10, 0⟩ = ⟨8, 9, 0⟩) ∧
    ((⟨6, 10, 0⟩ : LocalTime).isSunday = true →
      nextBusinessTime ⟨9, 17, false, 15, 30, (1:ℚ)/2⟩ ⟨6, 10, 0⟩ = ⟨7, 9, 0⟩) ∧
    ((⟨6, 10, 0⟩ : LocalTime).isSaturday = false →
      (⟨6, 10, 0⟩ : LocalTime).isSunday = false → (10 : ℤ) < 9 →
      nextBusinessTime ⟨9, 17, false, 15, 30, (1:ℚ)/2⟩ ⟨6, 10, 0⟩ = ⟨6, 9, 0⟩) ∧
    ((⟨6, 10, 0⟩ : LocalTime).isSaturday = false →
      (⟨6, 10, 0⟩ : LocalTime).isSunday = false → (9 : ℤ) ≤ 10 →
      nextBusinessTime ⟨9, 17, false, 15, 30, (1:ℚ)/2⟩ ⟨6, 10, 0⟩ = ⟨7, 9, 0⟩) ∧
    (∃ t2, WaitForBusinessHours ⟨9, 17, false, 15, 30, (1:ℚ)/2⟩ 3 ⟨6, 10, 0⟩ = some t2 ∧
      IsBusinessHours ⟨9, 17, false, 15, 30, (1:ℚ)/2⟩ t2 = true) :=
  C1_next_window ⟨9, 17, false, 15, 30, (1:ℚ)/2⟩ ⟨6, 10, 0⟩
    (by norm_num) (by norm_num) (by norm_num)

/-! ## Typing theorems (C5, C7) -/

theorem takeWhile_all_append {α : Type} (p : α → Bool) (l1 l2 : List α)
    (h : ∀ a ∈ l1, p a = true) :
    (l1 ++ l2).takeWhile p = l1 ++ l2.takeWhile p := by
  induction l1 with
  | nil => simp
  | cons a l ih =>
      have ha : p a = true := h a (by simp)
      simp [List.takeWhile, ha, ih (fun x hx => h x (by simp [hx]))]

theorem takeWhile_cons_false {α : Type} (p : α → Bool) (a : α) (l : List α)
    (h : p a = false) : (a :: l).takeWhile p = [] := by
  simp [List.takeWhile, h]

theorem typeCharSteps_spec {t : Typer} {d : TypingDraws} {mpc : ℤ} {i : ℕ}
    {c : Char} {l : List TypeStep} (h : typeCharSteps t d mpc i c = some l) :
    ∃ pre mid post,
      l = pre ++ mid ++ post ∧
      (∀ s ∈ pre, ∃ ms, s = TypeStep.prePause ms ∧ 200 ≤ ms ∧ ms ≤ 699) ∧
      ((∃ dl, mid = [TypeStep.keyChar c dl]) ∨
        (0 < i ∧ ∃ dl c2 d1 d2,
          mid = [TypeStep.typoChar c2 d1, TypeStep.backspace d2,
            TypeStep.keyChar c dl])) ∧
      (∀ s ∈ post, ∃ ms, s = TypeStep.postPause ms) := by
  unfold typeCharSteps at h
  cases hj : intn (mpc.tdiv 2) (d.charJitterU i) with
  | none => rw [hj] at h; simp at h
  | some j =>
      rw [hj] at h
      simp only [Option.bind_eq_bind, Option.some_bind, Option.pure_def,
        Option.some.injEq] at h
      refine ⟨if (d.pauseU i).val < t.pauseProbability then
          [TypeStep.prePause (200 + intnP 500 (d.pauseAmtU i))] else [],
        (if (d.typoU i).val < t.typoProbability ∧ 0 < i then
          [TypeStep.typoChar (getRandomChar (d.typoCharU i))
              (mpc + intnP 100 (d.typoDelayU i)),
           TypeStep.backspace (mpc + intnP 100 (d.bsDelayU i))] else []) ++
          [TypeStep.keyChar c (mpc + j - mpc.tdiv 4)],
        (if c = '.' ∨ c = ',' ∨ c = '!' ∨ c = '?' then
          [TypeStep.postPause (100 + intnP 300 (d.punctU i))] else []) ++
        (if c = ' ' then [TypeStep.postPause (50 + intnP 150 (d.spaceU i))] else []),
        ?_, ?_, ?_, ?_⟩
      · rw [← h]
        simp [List.append_assoc]
      · intro s hs
        split at hs
        · simp at hs
          subst hs
          have hb := intnP_bounds (n := 500) (by norm_num) (d.pauseAmtU i)
          exact ⟨200 + intnP 500 (d.pauseAmtU i), rfl, by omega, by omega⟩
        · simp at hs
      · split
        · rename_i htypo
          exact Or.inr ⟨htypo.2, mpc + j - mpc.tdiv 4,
            getRandomChar (d.typoCharU i), mpc + intnP 100 (d.typoDelayU i),
            mpc + intnP 100 (d.bsDelayU i), by simp⟩
        · exact Or.inl ⟨mpc + j - mpc.tdiv 4, by simp⟩
      · intro s hs
        simp only [List.mem_append] at hs
        rcases hs with hs | hs <;> split at hs <;> simp at hs <;>
          exact ⟨_, by rw [hs]⟩

theorem typeCharSteps_keyCount {t : Typer} {d : TypingDraws} {mpc : ℤ} {i : ℕ}
    {c : Char} {l : List TypeStep} (h : typeCharSteps t d mpc i c = some l) :
    l.countP TypeStep.isKeyChar = 1 := by
  obtain ⟨pre, mid, post, hl, hpre, hmid, hpost⟩ := typeCharSteps_spec h
  subst hl
  have hpre0 : pre.countP TypeStep.isKeyChar = 0 := by
    rw [List.countP_eq_zero]
    intro s hs
    obtain ⟨ms, rfl, -, -⟩ := hpre s hs
    simp [TypeStep.isKeyChar]
  have hpost0 : post.countP TypeStep.isKeyChar = 0 := by
    rw [List.countP_eq_zero]
    intro s hs
    obtain ⟨ms, rfl⟩ := hpost s hs
    simp [TypeStep.isKeyChar]
  have hmid1 : mid.countP TypeStep.isKeyChar = 1 := by
    rcases hmid with ⟨dl, rfl⟩ | ⟨-, dl, c2, d1, d2, rfl⟩ <;>
      simp [List.countP_cons, TypeStep.isKeyChar]
  simp [List.countP_append, hpre0, hmid1, hpost0]

theorem typeCharSteps_prePause {t : Typer} {d : TypingDraws} {mpc : ℤ} {i : ℕ}
    {c : Char} {l : List TypeStep} (h : typeCharSteps t d mpc i c = some l) :
    ∀ ms, TypeStep.prePause ms ∈ l → 200 ≤ ms ∧ ms ≤ 699 := by
  obtain ⟨pre, mid, post, hl, hpre, hmid, hpost⟩ := typeCharSteps_spec h
  subst hl
  intro ms hms
  simp only [List.mem_append] at hms
  rcases hms with (hms | hms) | hms
  · obtain ⟨ms2, heq, h1, h2⟩ := hpre _ hms
    have : ms = ms2 := by
      cases heq
      rfl
    subst this
    exact ⟨h1, h2⟩
  · exfalso
    rcases hmid with ⟨dl, rfl⟩ | ⟨-, dl, c2, d1, d2, rfl⟩ <;> simp at hms
  · exfalso
    obtain ⟨ms2, heq⟩ := hpost _ hms
    cases heq

theorem typePlanAux_count {t : Typer} {d : TypingDraws} {mpc : ℤ} :
    ∀ (cs : List Char) (i : ℕ) (l : List TypeStep),
      typePlanAux t d mpc i cs = some l →
      l.countP TypeStep.isKeyChar = cs.length := by
  intro cs
  induction cs with
  | nil =>
      intro i l h
      unfold typePlanAux at h
      simp only [Option.some.injEq] at h
      subst h
      simp
  | cons c cs ih =>
      intro i l h
      unfold typePlanAux at h
      cases h0 : typeCharSteps t d mpc i c with
      | none => rw [h0] at h; simp at h
      | some s0 =>
          rw [h0] at h
          cases h1 : typePlanAux t d mpc (i + 1) cs with
          | none => rw [h1] at h; simp at h
          | some rest =>
              rw [h1] at h
              simp only [Option.bind_eq_bind, Option.some_bind, Option.pure_def,
                Option.some.injEq] at h
              subst h
              rw [List.countP_append, typeCharSteps_keyCount h0, ih (i + 1) rest h1]
              simp [List.length_cons, Nat.add_comm]

theorem typePlanAux_prePause {t : Typer} {d : TypingDraws} {mpc : ℤ} :
    ∀ (cs : List Char) (i : ℕ) (l : List TypeStep),
      typePlanAux t d mpc i cs = some l →
      ∀ ms, TypeStep.prePause ms ∈ l → 200 ≤ ms ∧ ms ≤ 699 := by
  intro cs
  induction cs with
  | nil =>
      intro i l h
      unfold typePlanAux at h
      simp only [Option.some.injEq] at h
      subst h
      simp
  | cons c cs ih =>
      intro i l h
      unfold typePlanAux at h
      cases h0 : typeCharSteps t d mpc i c with
      | none => rw [h0] at h; simp at h
      | some s0 =>
          rw [h0] at h
          cases h1 : typePlanAux t d mpc (i + 1) cs with
          | none => rw [h1] at h; simp at h
          | some rest =>
              rw [h1] at h
              simp only [Option.bind_eq_bind, Option.some_bind, Option.pure_def,
                Option.some.injEq] at h
              subst h
              intro ms hms
              rcases List.mem_append.mp hms with hms | hms
              · exact typeCharSteps_prePause h0 ms hms
              · exact ih (i + 1) rest h1 ms hms

theorem typePlan_eq_aux {t : Typer} {d : TypingDraws} {text : List Char}
    {plan : List TypeStep} (h : typePlan t d text = some plan) :
    ∃ wj, intn (t.wpmMax - t.wpmMin + 1) d.wpmU = some wj ∧
      typePlanAux t d ((60000 : ℤ).tdiv ((t.wpmMin + wj) * 5)) 0 text = some plan := by
  unfold typePlan at h
  cases hw : intn (t.wpmMax - t.wpmMin + 1) d.wpmU with
  | none => rw [hw] at h; simp at h
  | some wj =>
      rw [hw] at h
      simp only [Option.bind_eq_bind, Option.some_bind] at h
      split at h
      · exact absurd h (by simp)
      · exact ⟨wj, rfl, h⟩

/-- The draw with value `999/1000`. -/
def u999 : U01 := mkU (999 / 1000) (by norm_num) (by norm_num)

/-- Typing draws that always produce the smallest value. -/
def d0T : TypingDraws :=
  ⟨u0, fun _ => u0, fun _ => u0, fun _ => u0, fun _ => u0, fun _ => u0,
   fun _ => u0, fun _ => u0, fun _ => u0, fun _ => u0⟩

/-- Typing draws whose pre-pause amount draw is near 1 (so that
`rand.Intn(500)` yields 499), all other draws smallest. -/
def d999T : TypingDraws :=
  ⟨u0, fun _ => u0, fun _ => u999, fun _ => u0, fun _ => u0, fun _ => u0,
   fun _ => u0, fun _ => u0, fun _ => u0, fun _ => u0⟩

theorem typePlan_ab_eval :
    typePlan (NewTyper 60 60 0 0) d0T ['a', 'b'] =
      some [TypeStep.keyChar 'a' 150, TypeStep.keyChar 'b' 150] := by
  norm_num [typePlan, typePlanAux, typeCharSteps, NewTyper, d0T, intn, intnP,
    u0, mkU, Int.tdiv]
  decide

theorem typePlan_a999_eval :
    typePlan (NewTyper 60 60 0 1) d999T ['a'] =
      some [TypeStep.prePause 699, TypeStep.keyChar 'a' 150] := by
  norm_num [typePlan, typePlanAux, typeCharSteps, NewTyper, d999T, intn, intnP,
    u0, u999, mkU, Int.tdiv]
  decide

/-- C7: every successfully generated keystroke plan contains exactly
`text.length` real-character emissions, and no typo event occurs before
the first real-character emission — in particular the character at
index 0 is never preceded by a typo+backspace pair. -/
theorem C7_keystroke_counts (t : Typer) (d : TypingDraws) (text : List Char)
    (plan : List TypeStep) (h : typePlan t d text = some plan) :
    plan.countP TypeStep.isKeyChar = text.length ∧
    ∀ s ∈ plan.takeWhile (fun s => !TypeStep.isKeyChar s),
      TypeStep.isTypo s = false := by
  obtain ⟨wj, hw, haux⟩ := typePlan_eq_aux h
  refine ⟨typePlanAux_count text 0 plan haux, ?_⟩
  cases text with
  | nil =>
      unfold typePlanAux at haux
      simp only [Option.some.injEq] at haux
      subst haux
      simp
  | cons c cs =>
      unfold typePlanAux at haux
      cases h0 : typeCharSteps t d ((60000 : ℤ).tdiv ((t.wpmMin + wj) * 5)) 0 c with
      | none => rw [h0] at haux; simp at haux
      | some s0 =>
          rw [h0] at haux
          cases h1 : typePlanAux t d ((60000 : ℤ).tdiv ((t.wpmMin + wj) * 5)) 1 cs with
          | none => rw [h1] at haux; simp at haux
          | some rest =>
              rw [h1] at haux
              simp only [Option.bind_eq_bind, Option.some_bind, Option.pure_def,
                Option.some.injEq] at haux
              subst haux
              obtain ⟨pre, mid, post, hl, hpre, hmid, hpost⟩ := typeCharSteps_spec h0
              have hmid1 : ∃ dl, mid = [TypeStep.keyChar c dl] := by
                rcases hmid with hmid | ⟨hpos, -⟩
                · exact hmid
                · exact absurd hpos (by omega)
              obtain ⟨dl, rfl⟩ := hmid1
              subst hl
              have hassoc :
                  ((pre ++ [TypeStep.keyChar c dl] ++ post) ++ rest) =
                    pre ++ (TypeStep.keyChar c dl :: (post ++ rest)) := by
                simp
              rw [hassoc,
                takeWhile_all_append (fun s => !TypeStep.isKeyChar s) pre _
                  (fun a ha => by
                    obtain ⟨ms, rfl, -, -⟩ := hpre a ha
                    simp [TypeStep.isKeyChar]),
                takeWhile_cons_false (fun s => !TypeStep.isKeyChar s) _ _
                  (by simp [TypeStep.isKeyChar])]
              intro s hs
              rcases List.mem_append.mp hs with hs | hs
              · obtain ⟨ms, rfl, -, -⟩ := hpre s hs
                simp [TypeStep.isTypo]
              · simp at hs

/-- Witness for C7: a 60-wpm, typo-free, pause-free profile typing
"ab" yields exactly the two real-character events, each with delay
150 ms, and nothing precedes the first one. -/
theorem C7_keystroke_counts_witness :
    typePlan (NewTyper 60 60 0 0) d0T ['a', 'b'] =
      some [TypeStep.keyChar 'a' 150, TypeStep.keyChar 'b' 150] ∧
    (([TypeStep.keyChar 'a' 150, TypeStep.keyChar 'b' 150] :
        List TypeStep).countP TypeStep.isKeyChar = (['a', 'b'] : List Char).length ∧
    ∀ s ∈ ([TypeStep.keyChar 'a' 150, TypeStep.keyChar 'b' 150] :
        List TypeStep).takeWhile (fun s => !TypeStep.isKeyChar s),
      TypeStep.isTypo s = false) :=
  ⟨typePlan_ab_eval, C7_keystroke_counts (NewTyper 60 60 0 0) d0T ['a', 'b']
    [TypeStep.keyChar 'a' 150, TypeStep.keyChar 'b' 150] typePlan_ab_eval⟩

/-- True unless the step is a pre-pause whose duration falls outside
`[lo, hi]`. -/
def prePauseWithin (lo hi : ℤ) : TypeStep → Bool
  | TypeStep.prePause ms => decide (lo ≤ ms ∧ ms ≤ hi)
  | _ => true

/-- The claim fails: with `pauseProbability = 1` and a pre-pause draw
near 1, the pre-pause emitted before the character is `200 + 499 = 699`
ms, outside the claimed 200–500 ms range. -/
theorem C5_counterexample :
    typePlan (NewTyper 60 60 0 1) d999T ['a'] =
      some [TypeStep.prePause 699, TypeStep.keyChar 'a' 150] ∧
    ([TypeStep.prePause 699, TypeStep.keyChar 'a' 150] :
        List TypeStep).all (prePauseWithin 200 500) = false :=
  ⟨typePlan_a999_eval, by decide⟩

/-- C5 (amended): whenever the pre-pause branch fires, the extra
pre-pause drawn is `200 + Intn(500)`, i.e. it lies in 200–699 ms (not
200–500 ms), for every character, every draw sequence and every
profile — in particular independent of `msPerChar`. -/
theorem C5_prepause_range (t : Typer) (d : TypingDraws) (text : List Char)
    (plan : List TypeStep) (h : typePlan t d text = some plan) :
    ∀ ms, TypeStep.prePause ms ∈ plan → 200 ≤ ms ∧ ms ≤ 699 := by
  obtain ⟨wj, hw, haux⟩ := typePlan_eq_aux h
  exact typePlanAux_prePause text 0 plan haux

/-- Witness for C5: the concrete plan of `C5_counterexample` satisfies
the amended 200–699 ms bound at its pre-pause of 699 ms. -/
theorem C5_prepause_range_witness : (200 : ℤ) ≤ 699 ∧ (699 : ℤ) ≤ 699 :=
  C5_prepause_range (NewTyper 60 60 0 1) d999T ['a']
    [TypeStep.prePause 699, TypeStep.keyChar 'a' 150] typePlan_a999_eval
    699 (by decide)

/-! ## Scroll theorems (C4, and failure/totality facts for C2) -/

theorem mapM_isSome {α β : Type} {f : α → Option β} :
    ∀ {xs : List α}, (∀ a ∈ xs, (f a).isSome) → (xs.mapM f).isSome
  | [], _ => by rw [List.mapM_nil]; simp
  | a :: as, h => by
      rw [List.mapM_cons]
      cases hfa : f a with
      | none => exact absurd (hfa ▸ h a (by simp)) (by simp)
      | some b =>
          have hrest : (as.mapM f).isSome :=
            mapM_isSome (fun x hx => h x (List.mem_cons_of_mem a hx))
          cases has : as.mapM f with
          | none => rw [has] at hrest; simp at hrest
          | some bs => simp [hfa, has]

theorem mapM_some_spec {α β : Type} {f : α → Option β} :
    ∀ {xs : List α} {l : List β}, xs.mapM f = some l →
      l.length = xs.length ∧ ∀ b ∈ l, ∃ a ∈ xs, f a = some b
  | [], l, h => by
      simp only [List.mapM_nil, Option.pure_def, Option.some.injEq] at h
      subst h
      simp
  | a :: as, l, h => by
      rw [List.mapM_cons] at h
      cases hfa : f a with
      | none => rw [hfa] at h; simp at h
      | some b =>
          rw [hfa] at h
          cases has : as.mapM f with
          | none => rw [has] at h; simp at h
          | some bs =>
              rw [has] at h
              simp only [Option.bind_eq_bind, Option.some_bind, Option.pure_def,
                Option.some.injEq] at h
              subst h
              obtain ⟨hlen, hmem⟩ := mapM_some_spec has
              refine ⟨by simp [hlen], ?_⟩
              intro x hx
              rcases List.mem_cons.mp hx with rfl | hx
              · exact ⟨a, by simp, hfa⟩
              · obtain ⟨a2, ha2, hfa2⟩ := hmem x hx
                exact ⟨a2, by simp [ha2], hfa2⟩

theorem scrollDownChunk_spec {s : Scroller} {d : ScrollDraws} {cs : ℤ} {i : ℕ}
    {ch : ScrollChunk} (h : scrollDownChunk s d cs i = some ch) :
    0 < cs.tdiv 2 ∧
    ∃ j, 0 ≤ j ∧ j < cs.tdiv 2 ∧ ch.delta = cs + j - cs.tdiv 4 := by
  unfold scrollDownChunk at h
  cases hj : intn (cs.tdiv 2) (d.amtU i) with
  | none => rw [hj] at h; simp at h
  | some j =>
      rw [hj] at h
      obtain ⟨hpos, hj0, hjlt⟩ := intn_eq_some hj
      cases hsp : intn (s.speedMax - s.speedMin + 1) (d.speedU i) with
      | none => rw [hsp] at h; simp at h
      | some sp =>
          rw [hsp] at h
          refine ⟨hpos, j, hj0, hjlt, ?_⟩
          simp only [Option.bind_eq_bind, Option.some_bind] at h
          split at h
          · cases hb : intn ((cs + j - cs.tdiv 4).tdiv 2) (d.backAmtU i) with
            | none => rw [hb] at h; simp at h
            | some b =>
                rw [hb] at h
                simp only [Option.bind_eq_bind, Option.some_bind, Option.pure_def,
                  Option.some.injEq] at h
                rw [← h]
          · simp only [Option.pure_def, Option.some_bind, Option.some.injEq] at h
            rw [← h]

/-- The draw with value `1/2`. -/
def u12 : U01 := mkU (1 / 2) (by norm_num) (by norm_num)

/-- Scroll draws: chunk-count draw `1/2` (so `chunks = 10`), everything
else smallest. -/
def dC4 : ScrollDraws :=
  ⟨u12, fun _ => u0, fun _ => u0, fun _ => u0, fun _ => u0, fun _ => u0,
   fun _ => u0, fun _ => u0⟩

set_option maxHeartbeats 2000000 in
theorem scrollDown_1000_eval :
    ScrollDown (NewScroller 100 100 0 0) dC4 1000 =
      some [⟨75, 100, none, none⟩, ⟨75, 100, none, none⟩, ⟨75, 100, none, none⟩,
        ⟨75, 100, none, none⟩, ⟨75, 100, none, none⟩, ⟨75, 100, none, none⟩,
        ⟨75, 100, none, none⟩, ⟨75, 100, none, none⟩, ⟨75, 100, none, none⟩,
        ⟨75, 100, none, none⟩] := by
  norm_num [ScrollDown, scrollDownChunk, NewScroller, dC4, intn, intnP, u0, u12,
    mkU, Int.tdiv, (by decide : Int.toNat 5 = 5),
    (by decide : List.range 10 = [0, 1, 2, 3, 4, 5, 6, 7, 8, 9]),
    List.mapM_cons, List.mapM_nil, List.mapM.loop]

/-- The claim fails: for `totalDistance = 1000` with a drawn chunk
count of 10, all jitter draws at 0 give ten forward deltas of 75, so
the forward-delta sum is 750 — off from 1000 by 250, far beyond the
claimed `chunkCount = 10` tolerance (the per-chunk −25 % jitter does
not cancel). -/
theorem C4_counterexample :
    ScrollDown (NewScroller 100 100 0 0) dC4 1000 =
      some [⟨75, 100, none, none⟩, ⟨75, 100, none, none⟩, ⟨75, 100, none, none⟩,
        ⟨75, 100, none, none⟩, ⟨75, 100, none, none⟩, ⟨75, 100, none, none⟩,
        ⟨75, 100, none, none⟩, ⟨75, 100, none, none⟩, ⟨75, 100, none, none⟩,
        ⟨75, 100, none, none⟩] ∧
    (([⟨75, 100, none, none⟩, ⟨75, 100, none, none⟩, ⟨75, 100, none, none⟩,
        ⟨75, 100, none, none⟩, ⟨75, 100, none, none⟩, ⟨75, 100, none, none⟩,
        ⟨75, 100, none, none⟩, ⟨75, 100, none, none⟩, ⟨75, 100, none, none⟩,
        ⟨75, 100, none, none⟩] : List ScrollChunk).map ScrollChunk.delta).sum = 750 ∧
    ¬((1000 - 750 : ℤ).natAbs ≤ 10) :=
  ⟨scrollDown_1000_eval, by decide, by decide⟩

/-- C4 (amended): for positive `totalDistance`, every successful
`ScrollDown` plan has `chunkCount = 5 + Intn(10)` forward chunks; each
forward delta is positive (sign matches) and deviates from the base
chunk `b = ⌊totalDistance / chunkCount⌋` by at least `−⌊b/4⌋` and at
most `⌊b/2⌋ − 1 − ⌊b/4⌋`, so the forward-delta sum lies between
`chunkCount·(b − ⌊b/4⌋)` and `chunkCount·(b + ⌊b/2⌋ − 1 − ⌊b/4⌋)`; it
is the un-jittered total `chunkCount·b` — not the emitted sum — that is
within `chunkCount` units of `totalDistance`. -/
theorem C4_scroll_sum (s : Scroller) (d : ScrollDraws) (dist : ℤ)
    (l : List ScrollChunk) (hpos : 0 < dist) (h : ScrollDown s d dist = some l) :
    ∃ c b : ℤ,
      c = ((5 + (intnP 10 d.chunksU).toNat : ℕ) : ℤ) ∧
      b = dist.tdiv c ∧ 2 ≤ b ∧ (l.length : ℤ) = c ∧
      (∀ ch ∈ l, 0 < ch.delta ∧ b - b.tdiv 4 ≤ ch.delta ∧
        ch.delta ≤ b + b.tdiv 2 - 1 - b.tdiv 4) ∧
      c * (b - b.tdiv 4) ≤ (l.map ScrollChunk.delta).sum ∧
      (l.map ScrollChunk.delta).sum ≤ c * (b + b.tdiv 2 - 1 - b.tdiv 4) ∧
      c * b ≤ dist ∧ dist < c * b + c := by
  simp only [ScrollDown] at h
  obtain ⟨hlen, hmem⟩ := mapM_some_spec h
  rw [List.length_range] at hlen
  have hcpos : (0 : ℤ) < ((5 + (intnP 10 d.chunksU).toNat : ℕ) : ℤ) := by
    positivity
  have hbnn : 0 ≤ dist.tdiv ((5 + (intnP 10 d.chunksU).toNat : ℕ) : ℤ) :=
    Int.tdiv_nonneg hpos.le hcpos.le
  have hlne : l ≠ [] := by
    intro hnil
    rw [hnil] at hlen
    simp at hlen
    omega
  obtain ⟨ch0, hch0⟩ := List.exists_mem_of_ne_nil l hlne
  obtain ⟨i0, hi0, hchunk0⟩ := hmem ch0 hch0
  obtain ⟨htdivpos, -⟩ := scrollDownChunk_spec hchunk0
  have hb2 : 2 ≤ dist.tdiv ((5 + (intnP 10 d.chunksU).toNat : ℕ) : ℤ) := by
    rw [Int.tdiv_eq_ediv hbnn (by norm_num)] at htdivpos
    omega
  refine ⟨_, _, rfl, rfl, hb2, by rw [hlen], ?_, ?_, ?_, ?_, ?_⟩
  · intro ch hch
    obtain ⟨i, hi, hchunk⟩ := hmem ch hch
    obtain ⟨-, j, hj0, hjlt, hdelta⟩ := scrollDownChunk_spec hchunk
    have ht2 := Int.tdiv_eq_ediv hbnn (show (0:ℤ) ≤ 2 by norm_num)
    have ht4 := Int.tdiv_eq_ediv hbnn (show (0:ℤ) ≤ 4 by norm_num)
    rw [hdelta]
    rw [ht2] at hjlt
    rw [ht4]
    omega
  · have hlo : ∀ x ∈ l.map ScrollChunk.delta,
        dist.tdiv ((5 + (intnP 10 d.chunksU).toNat : ℕ) : ℤ) -
          (dist.tdiv ((5 + (intnP 10 d.chunksU).toNat : ℕ) : ℤ)).tdiv 4 ≤ x := by
      intro x hx
      obtain ⟨ch, hch, rfl⟩ := List.mem_map.mp hx
      obtain ⟨i, hi, hchunk⟩ := hmem ch hch
      obtain ⟨-, j, hj0, hjlt, hdelta⟩ := scrollDownChunk_spec hchunk
      rw [hdelta]
      omega
    have := List.card_nsmul_le_sum (l.map ScrollChunk.delta) _ hlo
    rw [List.length_map, hlen] at this
    simpa [nsmul_eq_mul] using this
  · have hhi : ∀ x ∈ l.map ScrollChunk.delta,
        x ≤ dist.tdiv ((5 + (intnP 10 d.chunksU).toNat : ℕ) : ℤ) +
          (dist.tdiv ((5 + (intnP 10 d.chunksU).toNat : ℕ) : ℤ)).tdiv 2 - 1 -
          (dist.tdiv ((5 + (intnP 10 d.chunksU).toNat : ℕ) : ℤ)).tdiv 4 := by
      intro x hx
      obtain ⟨ch, hch, rfl⟩ := List.mem_map.mp hx
      obtain ⟨i, hi, hchunk⟩ := hmem ch hch
      obtain ⟨-, j, hj0, hjlt, hdelta⟩ := scrollDownChunk_spec hchunk
      rw [hdelta]
      omega
    have := List.sum_le_card_nsmul (l.map ScrollChunk.delta) _ hhi
    rw [List.length_map, hlen] at this
    simpa [nsmul_eq_mul] using this
  · have heq := Int.ediv_add_emod dist ((5 + (intnP 10 d.chunksU).toNat : ℕ) : ℤ)
    have hr0 := Int.emod_nonneg dist (ne_of_gt hcpos)
    rw [Int.tdiv_eq_ediv hpos.le hcpos.le]
    linarith
  · have heq := Int.ediv_add_emod dist ((5 + (intnP 10 d.chunksU).toNat : ℕ) : ℤ)
    have hrlt := Int.emod_lt_of_pos dist hcpos
    rw [Int.tdiv_eq_ediv hpos.le hcpos.le]
    linarith

/-- Witness for C4: the 1000-unit scroll plan of ten 75-unit chunks
satisfies the amended per-chunk and sum bounds. -/
theorem C4_scroll_sum_witness :
    ∃ c b : ℤ,
      c = ((5 + (intnP 10 dC4.chunksU).toNat : ℕ) : ℤ) ∧
      b = (1000 : ℤ).tdiv c ∧ 2 ≤ b ∧
      ((([⟨75, 100, none, none⟩, ⟨75, 100, none, none⟩, ⟨75, 100, none, none⟩,
        ⟨75, 100, none, none⟩, ⟨75, 100, none, none⟩, ⟨75, 100, none, none⟩,
        ⟨75, 100, none, none⟩, ⟨75, 100, none, none⟩, ⟨75, 100, none, none⟩,
        ⟨75, 100, none, none⟩] : List ScrollChunk)).length : ℤ) = c ∧
      (∀ ch ∈ ([⟨75, 100, none, none⟩, ⟨75, 100, none, none⟩, ⟨75, 100, none, none⟩,
        ⟨75, 100, none, none⟩, ⟨75, 100, none, none⟩, ⟨75, 100, none, none⟩,
        ⟨75, 100, none, none⟩, ⟨75, 100, none, none⟩, ⟨75, 100, none, none⟩,
        ⟨75, 100, none, none⟩] : List ScrollChunk), 0 < ch.delta ∧
          b - b.tdiv 4 ≤ ch.delta ∧ ch.delta ≤ b + b.tdiv 2 - 1 - b.tdiv 4) ∧
      c * (b - b.tdiv 4) ≤
        (([⟨75, 100, none, none⟩, ⟨75, 100, none, none⟩, ⟨75, 100, none, none⟩,
        ⟨75, 100, none, none⟩, ⟨75, 100, none, none⟩, ⟨75, 100, none, none⟩,
        ⟨75, 100, none, none⟩, ⟨75, 100, none, none⟩, ⟨75, 100, none, none⟩,
        ⟨75, 100, none, none⟩] : List ScrollChunk).map ScrollChunk.delta).sum ∧
      (([⟨75, 100, none, none⟩, ⟨75, 100, none, none⟩, ⟨75, 100, none, none⟩,
        ⟨75, 100, none, none⟩, ⟨75, 100, none, none⟩, ⟨75, 100, none, none⟩,
        ⟨75, 100, none, none⟩, ⟨75, 100, none, none⟩, ⟨75, 100, none, none⟩,
        ⟨75, 100, none, none⟩] : List ScrollChunk).map ScrollChunk.delta).sum ≤
        c * (b + b.tdiv 2 - 1 - b.tdiv 4) ∧
      c * b ≤ 1000 ∧ (1000 : ℤ) < c * b + c :=
  C4_scroll_sum (NewScroller 100 100 0 0) dC4 1000
    [⟨75, 100, none, none⟩, ⟨75, 100, none, none⟩, ⟨75, 100, none, none⟩,
     ⟨75, 100, none, none⟩, ⟨75, 100, none, none⟩, ⟨75, 100, none, none⟩,
     ⟨75, 100, none, none⟩, ⟨75, 100, none, none⟩, ⟨75, 100, none, none⟩,
     ⟨75, 100, none, none⟩] (by norm_num) scrollDown_1000_eval

/-! ## Construction/validation theorems (C3) -/

/-- A configuration whose stealth profiles are thoroughly invalid —
probabilities outside `[0,1]`, every min/max pair inverted — while the
few fields `validateConfig` actually checks are fine. -/
def cfgBad : Config :=
  { search := { maxResults := 10, paginationDelayMin := 5, paginationDelayMax := 2 }
    connections := { dailyLimit := 10, hourlyLimit := 5, noteCharacterLimit := 300
                     cooldownBetweenRequestsMin := 60, cooldownBetweenRequestsMax := 30 }
    messaging := { dailyLimit := 10, hourlyLimit := 5
                   cooldownBetweenMessagesMin := 60, cooldownBetweenMessagesMax := 30 }
    stealth := { mouse := { bezierPoints := 5, speedVariation := 2
                            overshootProbability := 3, microCorrectionProbability := -1 }
                 timing := { actionDelayMin := 9, actionDelayMax := 2, thinkTimeMin := 8
                             thinkTimeMax := 3, readingSpeedWPM := 200 }
                 typing := { wpmMin := 100, wpmMax := 50, typoProbability := 2
                             pauseProbability := -1 }
                 scrolling := { speedMin := 500, speedMax := 100
                                scrollBackProbability := 2, pauseProbability := 2 }
                 scheduling := { businessHoursStart := 9, businessHoursEnd := 17
                                 timezone := "America/New_York", weekendActivity := false
                                 breakDurationMin := 30, breakDurationMax := 15
                                 breakProbability := 2 } }
    browser := { headless := true, userAgents := ["Mozilla/5.0"], timeoutSeconds := 30 } }

/-- The claim fails: `cfgBad` has `typoProbability = 2`,
`scrollBackProbability = 2`, `breakProbability = 2`, and every min/max
pair inverted, yet `validateConfig` accepts it; `NewTyper` and
`NewScroller` cannot fail at all (they return the stored fields for
any input), and `NewScheduler` succeeds despite
`breakDurationMin > breakDurationMax` whenever the timezone resolves. -/
theorem C3_counterexample :
    validateConfig (fun _ => true) cfgBad = Except.ok () ∧
    NewTyper 100 50 2 (-1) =
      { wpmMin := 100, wpmMax := 50, typoProbability := 2, pauseProbability := -1 } ∧
    NewScroller 500 100 2 2 =
      { speedMin := 500, speedMax := 100, scrollBackProbability := 2,
        pauseProbability := 2 } ∧
    (NewScheduler (fun _ => true) 9 17 "America/New_York" false 30 15 2).isSome = true := by
  refine ⟨?_, rfl, rfl, ?_⟩
  · rfl
  · rfl

/-- C3 (amended): none of the engine constructors validates ranges:
`NewTyper` and `NewScroller` always succeed and store their arguments
unchanged for arbitrary (also invalid) values; `NewScheduler` fails
exactly when the timezone does not resolve, ignoring every other
field; and `validateConfig` checks only positivity of four limits,
non-emptiness of the user-agent list and timezone resolvability —
probabilities and min/max pairs are never examined. -/
theorem C3_construction (resolvable : String → Bool) (c : Config)
    (wpmMin wpmMax speedMin speedMax : ℤ) (p1 p2 p3 p4 : ℚ)
    (bhs bhe bmin bmax : ℤ) (tz : String) (wa : Bool) (bp : ℚ) :
    NewTyper wpmMin wpmMax p1 p2 =
      { wpmMin := wpmMin, wpmMax := wpmMax, typoProbability := p1,
        pauseProbability := p2 } ∧
    NewScroller speedMin speedMax p3 p4 =
      { speedMin := speedMin, speedMax := speedMax,
        scrollBackProbability := p3, pauseProbability := p4 } ∧
    ((NewScheduler resolvable bhs bhe tz wa bmin bmax bp).isSome = true ↔
      resolvable tz = true) ∧
    (validateConfig resolvable c = Except.ok () ↔
      (0 < c.search.maxResults ∧ 0 < c.connections.dailyLimit ∧
       0 < c.messaging.dailyLimit ∧ 0 < c.browser.timeoutSeconds ∧
       c.browser.userAgents ≠ [] ∧
       resolvable c.stealth.scheduling.timezone = true)) := by
  refine ⟨rfl, rfl, ?_, ?_⟩
  · unfold NewScheduler
    cases hres : resolvable tz <;> simp [hres]
  · unfold validateConfig
    split_ifs with h1 h2 h3 h4 h5 h6
    · simp only [false_iff, not_and]
      intro ha
      omega
    · constructor
      · intro habs
        exact absurd habs (by simp)
      · rintro ⟨-, ha, -⟩
        omega
    · constructor
      · intro habs
        exact absurd habs (by simp)
      · rintro ⟨-, -, ha, -⟩
        omega
    · constructor
      · intro habs
        exact absurd habs (by simp)
      · rintro ⟨-, -, -, ha, -⟩
        omega
    · constructor
      · intro habs
        exact absurd habs (by simp)
      · rintro ⟨-, -, -, -, hne, -⟩
        exact hne (List.length_eq_zero.mp h5)
    · constructor
      · intro _
        refine ⟨by omega, by omega, by omega, by omega, ?_, h6⟩
        intro hnil
        exact h5 (by rw [hnil]; rfl)
      · intro _
        rfl
    · constructor
      · intro habs
        exact habs.elim
      · rintro ⟨-, -, -, -, -, hres⟩
        exact h6 hres

/-! ## Motion-path theorems (C6, C8, C9) -/

theorem binomAux_zero (n : ℕ) : binomAux n 0 = 1 := rfl

theorem binomAux_succ (n k : ℕ) :
    binomAux n (k + 1) = binomAux n k * ((n : ℚ) - (k : ℚ)) / ((k : ℚ) + 1) := by
  unfold binomAux
  rw [List.range_succ, List.foldl_append]
  rfl

theorem binomAux_eq_choose (n : ℕ) : ∀ k, k ≤ n → binomAux n k = (n.choose k : ℚ)
  | 0, _ => by simp [binomAux_zero]
  | k + 1, hk => by
      rw [binomAux_succ, binomAux_eq_choose n k (by omega)]
      have hcast : ((n - k : ℕ) : ℚ) = (n : ℚ) - (k : ℚ) :=
        Nat.cast_sub (by omega)
      have hch : ((n.choose (k + 1) : ℚ)) * ((k : ℚ) + 1) =
          (n.choose k : ℚ) * ((n : ℚ) - (k : ℚ)) := by
        rw [← hcast]
        exact_mod_cast congrArg (Nat.cast (R := ℚ)) (Nat.choose_succ_right_eq n k)
      have hk1 : ((k : ℚ) + 1) ≠ 0 := by positivity
      field_simp
      linarith [hch]

theorem binomialCoefficient_eq_choose (n k : ℕ) :
    binomialCoefficient n k = (n.choose k : ℚ) := by
  unfold binomialCoefficient
  split_ifs with hgt heq
  · rw [Nat.choose_eq_zero_of_lt hgt]
    simp
  · rcases heq with rfl | rfl
    · simp
    · simp
  · push_neg at heq
    exact binomAux_eq_choose n k (by omega)

theorem bernstein_sum (n : ℕ) (t : ℚ) :
    ∑ i ∈ Finset.range (n + 1),
      binomialCoefficient n i * (1 - t) ^ (n - i) * t ^ i = 1 := by
  calc ∑ i ∈ Finset.range (n + 1),
        binomialCoefficient n i * (1 - t) ^ (n - i) * t ^ i
      = ∑ i ∈ Finset.range (n + 1),
          t ^ i * (1 - t) ^ (n - i) * ((n.choose i : ℕ) : ℚ) := by
        refine Finset.sum_congr rfl fun i _ => ?_
        rw [binomialCoefficient_eq_choose]
        ring
    _ = (t + (1 - t)) ^ n := (add_pow t (1 - t) n).symm
    _ = 1 := by norm_num

theorem getD_replicate {α : Type} (a dflt : α) :
    ∀ (n i : ℕ), i < n → (List.replicate n a).getD i dflt = a
  | 0, i, h => absurd h (by omega)
  | n + 1, 0, _ => rfl
  | n + 1, i + 1, h => by
      rw [List.replicate_succ, List.getD_cons_succ]
      exact getD_replicate a dflt n i (by omega)

theorem bernstein_weighted_const (n : ℕ) (t c : ℚ) (g : ℕ → ℚ)
    (hg : ∀ i ∈ Finset.range (n + 1), g i = c) :
    ∑ i ∈ Finset.range (n + 1),
      binomialCoefficient n i * (1 - t) ^ (n - i) * t ^ i * g i = c := by
  calc ∑ i ∈ Finset.range (n + 1),
        binomialCoefficient n i * (1 - t) ^ (n - i) * t ^ i * g i
      = ∑ i ∈ Finset.range (n + 1),
          binomialCoefficient n i * (1 - t) ^ (n - i) * t ^ i * c :=
        Finset.sum_congr rfl fun i hi => by rw [hg i hi]
    _ = (∑ i ∈ Finset.range (n + 1),
          binomialCoefficient n i * (1 - t) ^ (n - i) * t ^ i) * c :=
        (Finset.sum_mul _ _ _).symm
    _ = c := by rw [bernstein_sum]; ring

theorem bezierPoint_const (p : Point) (k : ℕ) (hk : 0 < k) (t : ℚ) :
    bezierPoint (List.replicate k p) t = p := by
  have hgd : ∀ i ∈ Finset.range (k - 1 + 1),
      (List.replicate k p).getD i ⟨0, 0⟩ = p := by
    intro i hi
    rw [Finset.mem_range] at hi
    exact getD_replicate p ⟨0, 0⟩ k i (by omega)
  unfold bezierPoint
  simp only [List.length_replicate]
  cases p with
  | mk px py =>
      rw [Point.mk.injEq]
      exact ⟨bernstein_weighted_const (k - 1) t px _
          (fun i hi => by rw [hgd i hi]),
        bernstein_weighted_const (k - 1) t py _
          (fun i hi => by rw [hgd i hi])⟩

theorem controlPoints_const (fn : RealFns) (m : MouseMover) (d : MotionDraws)
    (p : Point) : controlPoints fn m d p p = List.replicate m.bezierPoints p := by
  unfold controlPoints
  rw [List.eq_replicate_iff]
  refine ⟨by simp, ?_⟩
  intro b hb
  simp only [List.mem_map, List.mem_range] at hb
  obtain ⟨i, hi, rfl⟩ := hb
  split_ifs with h1 h2
  · rfl
  · rfl
  · cases p with
    | mk px py => simp [sub_self, fn.sqrt_zero]

theorem stepEvents_wait_nonneg (m : MouseMover) (d : MotionDraws) (len i : ℕ)
    (p : Point) (h0 : 0 ≤ m.speedVariation) (h1 : m.speedVariation ≤ 1) :
    ∀ q, PathEvent.wait q ∈ stepEvents m d len i p → 0 ≤ q := by
  intro q hq
  have hbase := intnP_bounds (n := 10) (by norm_num) (d.baseU i)
  have hb5 : (5 : ℤ) ≤ 5 + intnP 10 (d.baseU i) := by omega
  have huv := (d.varU i).property
  have hvlow : -((5 + intnP 10 (d.baseU i) : ℤ) : ℚ) ≤
      ((5 + intnP 10 (d.baseU i) : ℤ) : ℚ) * m.speedVariation *
        ((d.varU i).val * 2 - 1) := by
    have hbq : (0 : ℚ) ≤ ((5 + intnP 10 (d.baseU i) : ℤ) : ℚ) := by
      exact_mod_cast (by omega : (0 : ℤ) ≤ 5 + intnP 10 (d.baseU i))
    have hs0 : (0 : ℚ) ≤ ((5 + intnP 10 (d.baseU i) : ℤ) : ℚ) * m.speedVariation :=
      mul_nonneg hbq h0
    have hsb : ((5 + intnP 10 (d.baseU i) : ℤ) : ℚ) * m.speedVariation ≤
        ((5 + intnP 10 (d.baseU i) : ℤ) : ℚ) := by
      nlinarith
    have hw : (-1 : ℚ) ≤ (d.varU i).val * 2 - 1 := by nlinarith [huv.1]
    nlinarith
  have htr : -(5 + intnP 10 (d.baseU i)) ≤
      truncQ (((5 + intnP 10 (d.baseU i) : ℤ) : ℚ) * m.speedVariation *
        ((d.varU i).val * 2 - 1)) := by
    unfold truncQ
    split
    · rename_i hpos
      have : (0 : ℤ) ≤ ⌊((5 + intnP 10 (d.baseU i) : ℤ) : ℚ) * m.speedVariation *
          ((d.varU i).val * 2 - 1)⌋ := Int.floor_nonneg.mpr hpos
      omega
    · have hle := Int.le_ceil (((5 + intnP 10 (d.baseU i) : ℤ) : ℚ) *
        m.speedVariation * ((d.varU i).val * 2 - 1))
      have : (-(5 + intnP 10 (d.baseU i) : ℤ) : ℚ) ≤
          (⌈((5 + intnP 10 (d.baseU i) : ℤ) : ℚ) * m.speedVariation *
            ((d.varU i).val * 2 - 1)⌉ : ℚ) := by
        calc (-(5 + intnP 10 (d.baseU i) : ℤ) : ℚ)
            = -((5 + intnP 10 (d.baseU i) : ℤ) : ℚ) := by push_cast; ring
          _ ≤ _ := le_trans hvlow hle
      exact_mod_cast this
  have hdel : (0 : ℤ) ≤ (5 + intnP 10 (d.baseU i)) +
      truncQ (((5 + intnP 10 (d.baseU i) : ℤ) : ℚ) * m.speedVariation *
        ((d.varU i).val * 2 - 1)) := by omega
  unfold stepEvents at hq
  have hdelq : (0 : ℚ) ≤ (((5 + intnP 10 (d.baseU i)) +
      truncQ (((5 + intnP 10 (d.baseU i) : ℤ) : ℚ) * m.speedVariation *
        ((d.varU i).val * 2 - 1)) : ℤ) : ℚ) := by
    exact_mod_cast hdel
  rcases List.mem_append.mp hq with hq | hq
  · rcases List.mem_append.mp hq with hq | hq
    · simp at hq
    · split at hq
      · simp only [List.mem_cons, List.mem_singleton] at hq
        rcases hq with hq | hq | hq
        · cases hq
        · cases hq
          positivity
        · cases hq
      · simp at hq
  · simp only [List.mem_singleton] at hq
    cases hq
    exact hdelq

/-- C8: with `start = end`, the generated Bézier path exists, is
nonempty, and every sampled point equals `start` (zero perpendicular
offset since the distance is zero); and for `speedVariation ∈ [0,1]`
every wait in the emitted motion plan is ≥ 0. -/
theorem C8_degenerate_path (fn : RealFns) (m : MouseMover) (d : MotionDraws)
    (p : Point) (hbp : 1 ≤ m.bezierPoints) (h0 : 0 ≤ m.speedVariation)
    (h1 : m.speedVariation ≤ 1) :
    (∃ pts, generateBezierPath fn m d p p = some pts ∧ pts ≠ [] ∧
      ∀ q ∈ pts, q = p) ∧
    (∃ l, moveToPoint fn m d p p = some l ∧
      ∀ ms, PathEvent.wait ms ∈ l → 0 ≤ ms) := by
  have hne : m.bezierPoints ≠ 0 := by omega
  have hgen : generateBezierPath fn m d p p =
      some ((List.range (20 + (intnP 30 d.numPtsU).toNat)).map fun (i : ℕ) =>
        bezierPoint (controlPoints fn m d p p)
          ((i : ℚ) / (((20 + (intnP 30 d.numPtsU).toNat : ℕ) : ℚ) - 1))) := by
    unfold generateBezierPath
    rw [if_neg hne]
  constructor
  · refine ⟨_, hgen, ?_, ?_⟩
    · intro habs
      have hlen := congrArg List.length habs
      simp at hlen
    · intro q hq
      simp only [List.mem_map, List.mem_range] at hq
      obtain ⟨i, hi, rfl⟩ := hq
      rw [controlPoints_const]
      exact bezierPoint_const p m.bezierPoints (by omega) _
  · cases hm : moveToPoint fn m d p p with
    | none =>
        exfalso
        unfold moveToPoint at hm
        rw [hgen] at hm
        simp at hm
    | some l =>
        refine ⟨l, rfl, ?_⟩
        unfold moveToPoint at hm
        rw [hgen] at hm
        simp only [Option.bind_eq_bind, Option.some_bind, Option.pure_def,
          Option.some.injEq] at hm
        subst hm
        intro ms hms
        rw [List.mem_flatMap] at hms
        obtain ⟨ip, -, hin⟩ := hms
        exact stepEvents_wait_nonneg m d _ ip.1 ip.2 h0 h1 ms hin

/-- Concrete transcendental-function model: zero square root (correct
at 0), cosine 1, sine 0, arc-tangent 0, π as 355/113. -/
def fn0 : RealFns :=
  { sqrt := fun _ => 0, cos := fun _ => 1, sin := fun _ => 0,
    atan2 := fun _ _ => 0, pi := 355 / 113, sqrt_zero := rfl }

/-- Motion draws that always produce the smallest value. -/
def d0M : MotionDraws :=
  ⟨fun _ => u0, u0, u0, u0, u0, fun _ => u0, fun _ => u0, fun _ => u0,
   fun _ => u0, fun _ => u0⟩

/-- Witness for C8: a two-control-point profile with zero speed
variation at `start = end = (3,4)`. -/
theorem C8_degenerate_path_witness :
    (∃ pts, generateBezierPath fn0 (NewMouseMover 2 0 0 0) d0M ⟨3, 4⟩ ⟨3, 4⟩ =
        some pts ∧ pts ≠ [] ∧ ∀ q ∈ pts, q = (⟨3, 4⟩ : Point)) ∧
    (∃ l, moveToPoint fn0 (NewMouseMover 2 0 0 0) d0M ⟨3, 4⟩ ⟨3, 4⟩ = some l ∧
      ∀ ms, PathEvent.wait ms ∈ l → 0 ≤ ms) :=
  C8_degenerate_path fn0 (NewMouseMover 2 0 0 0) d0M ⟨3, 4⟩
    (by norm_num [NewMouseMover]) (by norm_num [NewMouseMover])
    (by norm_num [NewMouseMover])

theorem bezierPoint_zero (cps : List Point) :
    bezierPoint cps 0 = cps.getD 0 ⟨0, 0⟩ := by
  unfold bezierPoint
  have hkey : ∀ g : ℕ → ℚ,
      ∑ i ∈ Finset.range (cps.length - 1 + 1),
        binomialCoefficient (cps.length - 1) i *
          (1 - 0) ^ (cps.length - 1 - i) * (0 : ℚ) ^ i * g i = g 0 := by
    intro g
    rw [Finset.sum_eq_single 0]
    · simp [binomialCoefficient]
    · intro i hi hne
      rw [zero_pow hne]
      ring
    · intro habs
      exact absurd (Finset.mem_range.mpr (by omega)) habs
  cases hc : cps.getD 0 ⟨0, 0⟩ with
  | mk px py =>
      rw [Point.mk.injEq]
      constructor
      · have h2 := hkey fun i => (cps.getD i ⟨0, 0⟩).x
        rw [hc] at h2
        simpa using h2
      · have h2 := hkey fun i => (cps.getD i ⟨0, 0⟩).y
        rw [hc] at h2
        simpa using h2

theorem controlPoints_head (fn : RealFns) (m : MouseMover) (d : MotionDraws)
    (s e : Point) (h : 2 ≤ m.bezierPoints) :
    (controlPoints fn m d s e).getD 0 ⟨0, 0⟩ = s := by
  unfold controlPoints
  cases hbp : m.bezierPoints with
  | zero => omega
  | succ k =>
      rw [List.range_succ_eq_map, List.map_cons, List.getD_cons_zero]
      rw [if_neg (by omega), if_pos rfl]

theorem moveToPoint_head (fn : RealFns) (m : MouseMover) (d : MotionDraws)
    (s e : Point) (h : 2 ≤ m.bezierPoints) :
    ∃ l, moveToPoint fn m d s e = some l ∧
      l.head? = some (PathEvent.moveTo s) := by
  have hne : m.bezierPoints ≠ 0 := by omega
  obtain ⟨k, hk⟩ : ∃ k, 20 + (intnP 30 d.numPtsU).toNat = k + 1 :=
    ⟨19 + (intnP 30 d.numPtsU).toNat, by omega⟩
  have hgen : generateBezierPath fn m d s e =
      some ((List.range (20 + (intnP 30 d.numPtsU).toNat)).map fun (i : ℕ) =>
        bezierPoint (controlPoints fn m d s e)
          ((i : ℚ) / (((20 + (intnP 30 d.numPtsU).toNat : ℕ) : ℚ) - 1))) := by
    unfold generateBezierPath
    rw [if_neg hne]
  have hf0 : bezierPoint (controlPoints fn m d s e)
      (((0 : ℕ) : ℚ) / (((k + 1 : ℕ) : ℚ) - 1)) = s := by
    rw [Nat.cast_zero, zero_div, bezierPoint_zero]
    exact controlPoints_head fn m d s e h
  unfold moveToPoint
  rw [hgen]
  simp only [Option.bind_eq_bind, Option.some_bind, Option.pure_def]
  refine ⟨_, rfl, ?_⟩
  rw [hk, List.range_succ_eq_map, List.map_cons, List.map_map]
  split
  · rw [List.cons_append, List.enum_cons, List.flatMap_cons]
    unfold stepEvents
    simp only [List.singleton_append, List.cons_append, List.head?_cons,
      Option.some.injEq, PathEvent.moveTo.injEq]
    exact hf0
  · rw [List.enum_cons, List.flatMap_cons]
    unfold stepEvents
    simp only [List.singleton_append, List.cons_append, List.head?_cons,
      Option.some.injEq, PathEvent.moveTo.injEq]
    exact hf0

/-- C9: `getCurrentPosition` always reports the origin with no error,
so the random-fallback branch of `MoveToElement` is dead and every
plan `MoveToElement` generates starts with a move to `(0,0)`,
wherever the pointer actually is. -/
theorem C9_move_from_origin (fn : RealFns) (m : MouseMover) (d : MotionDraws)
    (box : Box) (tU tV fU fV : U01) (hbp : 2 ≤ m.bezierPoints) :
    getCurrentPosition = (⟨0, 0⟩, false) ∧
    ∃ l, MoveToElement fn m d box tU tV fU fV = some l ∧
      l.head? = some (PathEvent.moveTo ⟨0, 0⟩) := by
  refine ⟨rfl, ?_⟩
  unfold MoveToElement
  simp only [getCurrentPosition, Bool.false_eq_true, if_false]
  exact moveToPoint_head fn m d ⟨0, 0⟩ _ hbp

/-- Witness for C9: a 3-control-point profile moving to a concrete
element box. -/
theorem C9_move_from_origin_witness :
    getCurrentPosition = ((⟨0, 0⟩ : Point), false) ∧
    ∃ l, MoveToElement fn0 (NewMouseMover 3 0 0 0) d0M ⟨100, 200, 50, 40⟩
        u0 u0 u0 u0 = some l ∧
      l.head? = some (PathEvent.moveTo ⟨0, 0⟩) :=
  C9_move_from_origin fn0 (NewMouseMover 3 0 0 0) d0M ⟨100, 200, 50, 40⟩
    u0 u0 u0 u0 (by norm_num [NewMouseMover])

/-- C6 (amended): when the micro-correction branch fires, the jittered
point (offset in `[-2, 2)` in x and y) is emitted immediately AFTER
the real point, followed by a wait of half the step delay and then the
full delay — not before the real point as claimed; and the eligible
indices are the interior of the full emitted path including the
overshoot tail, since the loop bound uses the overshoot-extended
length. -/
theorem C6_micro_correction (fn : RealFns) (m : MouseMover) (d : MotionDraws)
    (s e : Point) :
    (∀ len i p, 0 < i → i < len - 1 → (d.microU i).val < m.microCorrectionProb →
      ∃ ox oy : ℚ, -2 ≤ ox ∧ ox < 2 ∧ -2 ≤ oy ∧ oy < 2 ∧
        ∃ dl : ℤ, stepEvents m d len i p =
          [PathEvent.moveTo p, PathEvent.moveTo ⟨p.x + ox, p.y + oy⟩,
           PathEvent.wait ((dl : ℚ) / 2), PathEvent.wait (dl : ℚ)]) ∧
    (∀ len i p, ¬(0 < i ∧ i < len - 1 ∧ (d.microU i).val < m.microCorrectionProb) →
      ∃ dl : ℤ, stepEvents m d len i p =
        [PathEvent.moveTo p, PathEvent.wait (dl : ℚ)]) ∧
    (∀ l, moveToPoint fn m d s e = some l →
      ∃ path, generateBezierPath fn m d s e = some path ∧
        ((d.overshootU.val < m.overshootProb ∧
          l = (path ++ generateOvershoot fn d e).enum.flatMap
            (fun ip => stepEvents m d
              (path ++ generateOvershoot fn d e).length ip.1 ip.2)) ∨
         (¬d.overshootU.val < m.overshootProb ∧
          l = path.enum.flatMap
            (fun ip => stepEvents m d path.length ip.1 ip.2)))) := by
  refine ⟨?_, ?_, ?_⟩
  · intro len i p h1 h2 h3
    have hux := (d.microXU i).property
    have huy := (d.microYU i).property
    refine ⟨(d.microXU i).val * 4 - 2, (d.microYU i).val * 4 - 2,
      by nlinarith [hux.1], by nlinarith [hux.2], by nlinarith [huy.1],
      by nlinarith [huy.2], 5 + intnP 10 (d.baseU i) +
        truncQ (((5 + intnP 10 (d.baseU i) : ℤ) : ℚ) * m.speedVariation *
          ((d.varU i).val * 2 - 1)), ?_⟩
    simp only [stepEvents]
    rw [if_pos ⟨h1, h2, h3⟩]
    push_cast
    rfl
  · intro len i p hcond
    refine ⟨5 + intnP 10 (d.baseU i) +
      truncQ (((5 + intnP 10 (d.baseU i) : ℤ) : ℚ) * m.speedVariation *
        ((d.varU i).val * 2 - 1)), ?_⟩
    simp only [stepEvents]
    rw [if_neg hcond]
    push_cast
    rfl
  · intro l hl
    unfold moveToPoint at hl
    cases hgen : generateBezierPath fn m d s e with
    | none => rw [hgen] at hl; simp at hl
    | some path =>
        rw [hgen] at hl
        simp only [Option.bind_eq_bind, Option.some_bind, Option.pure_def,
          Option.some.injEq] at hl
        refine ⟨path, rfl, ?_⟩
        by_cases hov : d.overshootU.val < m.overshootProb
        · rw [if_pos hov] at hl
          exact Or.inl ⟨hov, hl.symm⟩
        · rw [if_neg hov] at hl
          exact Or.inr ⟨hov, hl.symm⟩

/-- Witness for C6: at interior index 1 of a 22-step path with
micro-correction probability 1, the step emits the real point, then
the jittered point, then the half delay and the full delay. -/
theorem C6_micro_correction_witness :
    ∃ ox oy : ℚ, -2 ≤ ox ∧ ox < 2 ∧ -2 ≤ oy ∧ oy < 2 ∧
      ∃ dl : ℤ, stepEvents (NewMouseMover 2 0 1 1) d0M 22 1 ⟨0, 0⟩ =
        [PathEvent.moveTo ⟨0, 0⟩,
         PathEvent.moveTo ⟨(⟨0, 0⟩ : Point).x + ox, (⟨0, 0⟩ : Point).y + oy⟩,
         PathEvent.wait ((dl : ℚ) / 2), PathEvent.wait (dl : ℚ)] :=
  (C6_micro_correction fn0 (NewMouseMover 2 0 1 1) d0M ⟨0, 0⟩ ⟨0, 0⟩).1 22 1 ⟨0, 0⟩
    (by norm_num) (by norm_num)
    (by norm_num [NewMouseMover, d0M, u0, mkU])

/-- The claim fails in two ways, shown on a concrete 22-point run
(20 curve points at the origin plus the 2-point overshoot tail, micro
probability 1): (i) at interior index 1 the real point is emitted
FIRST and the jittered point after it — not jitter-before-real as
claimed; (ii) the loop bound is the overshoot-extended length, so
index 20 — the overshoot point itself, excluded by the claim — also
receives a micro-correction. -/
theorem C6_counterexample :
    stepEvents (NewMouseMover 2 0 1 1) d0M 22 1 ⟨0, 0⟩ =
      [PathEvent.moveTo ⟨0, 0⟩, PathEvent.moveTo ⟨-2, -2⟩,
       PathEvent.wait (5 / 2), PathEvent.wait 5] ∧
    stepEvents (NewMouseMover 2 0 1 1) d0M 22 20 ⟨10, 0⟩ =
      [PathEvent.moveTo ⟨10, 0⟩, PathEvent.moveTo ⟨8, -2⟩,
       PathEvent.wait (5 / 2), PathEvent.wait 5] ∧
    moveToPoint fn0 (NewMouseMover 2 0 1 1) d0M ⟨0, 0⟩ ⟨0, 0⟩ =
      some ((List.replicate 20 (⟨0, 0⟩ : Point) ++
          ([⟨10, 0⟩, ⟨0, 0⟩] : List Point)).enum.flatMap
        (fun ip => stepEvents (NewMouseMover 2 0 1 1) d0M 22 ip.1 ip.2)) := by
  refine ⟨?_, ?_, ?_⟩
  · norm_num [stepEvents, NewMouseMover, d0M, intnP, truncQ, u0, mkU]
  · norm_num [stepEvents, NewMouseMover, d0M, intnP, truncQ, u0, mkU]
  · have hnum : 20 + (intnP 30 d0M.numPtsU).toNat = 20 := by
      norm_num [d0M, intnP, u0, mkU]
    have hgen0 : generateBezierPath fn0 (NewMouseMover 2 0 1 1) d0M ⟨0, 0⟩ ⟨0, 0⟩ =
        some ((List.range (20 + (intnP 30 d0M.numPtsU).toNat)).map fun (i : ℕ) =>
          bezierPoint (controlPoints fn0 (NewMouseMover 2 0 1 1) d0M ⟨0, 0⟩ ⟨0, 0⟩)
            ((i : ℚ) / (((20 + (intnP 30 d0M.numPtsU).toNat : ℕ) : ℚ) - 1))) := by
      unfold generateBezierPath
      rw [if_neg (by norm_num [NewMouseMover])]
    rw [hnum] at hgen0
    have hpath : generateBezierPath fn0 (NewMouseMover 2 0 1 1) d0M ⟨0, 0⟩ ⟨0, 0⟩ =
        some (List.replicate 20 (⟨0, 0⟩ : Point)) := by
      rw [hgen0]
      congr 1
      rw [List.eq_replicate_iff]
      constructor
      · simp
      · intro b hb
        simp only [List.mem_map, List.mem_range] at hb
        obtain ⟨i, hi, rfl⟩ := hb
        rw [controlPoints_const]
        exact bezierPoint_const ⟨0, 0⟩ (NewMouseMover 2 0 1 1).bezierPoints
          (by norm_num [NewMouseMover]) _
    have hov : generateOvershoot fn0 d0M (⟨0, 0⟩ : Point) =
        ([⟨10, 0⟩, ⟨0, 0⟩] : List Point) := by
      norm_num [generateOvershoot, fn0, d0M, u0, mkU]
    unfold moveToPoint
    rw [hpath]
    simp only [Option.bind_eq_bind, Option.some_bind, Option.pure_def,
      Option.some.injEq]
    rw [if_pos (by norm_num [NewMouseMover, d0M, u0, mkU]), hov]
    have hlen : ((List.replicate 20 (⟨0, 0⟩ : Point)) ++
        ([⟨10, 0⟩, ⟨0, 0⟩] : List Point)).length = 22 := by
      simp
    rw [hlen]

/-! ## Totality of the planners (C2) -/

theorem typeCharSteps_isSome (t : Typer) (d : TypingDraws) {mpc : ℤ}
    (hm : 2 ≤ mpc) (i : ℕ) (c : Char) : (typeCharSteps t d mpc i c).isSome := by
  unfold typeCharSteps
  have h2 : 0 < mpc.tdiv 2 := by
    rw [Int.tdiv_eq_ediv (by omega) (by norm_num)]
    omega
  obtain ⟨j, hj⟩ := Option.isSome_iff_exists.mp (intn_isSome h2 (d.charJitterU i))
  rw [hj]
  simp

theorem typePlanAux_isSome (t : Typer) (d : TypingDraws) {mpc : ℤ}
    (hm : 2 ≤ mpc) : ∀ (cs : List Char) (i : ℕ),
      (typePlanAux t d mpc i cs).isSome
  | [], _ => by
      unfold typePlanAux
      simp
  | c :: cs, i => by
      unfold typePlanAux
      obtain ⟨s0, hs0⟩ :=
        Option.isSome_iff_exists.mp (typeCharSteps_isSome t d hm i c)
      obtain ⟨rest, hrest⟩ :=
        Option.isSome_iff_exists.mp (typePlanAux_isSome t d hm cs (i + 1))
      rw [hs0, hrest]
      simp

theorem typePlan_isSome (t : Typer) (d : TypingDraws) (text : List Char)
    (h1 : 1 ≤ t.wpmMin) (h2 : t.wpmMin ≤ t.wpmMax) (h3 : t.wpmMax ≤ 6000) :
    (typePlan t d text).isSome := by
  unfold typePlan
  have hn : 0 < t.wpmMax - t.wpmMin + 1 := by omega
  obtain ⟨wj, hwj⟩ := Option.isSome_iff_exists.mp (intn_isSome hn d.wpmU)
  obtain ⟨-, hj0, hjlt⟩ := intn_eq_some hwj
  rw [hwj]
  have hcpml : 5 ≤ (t.wpmMin + wj) * 5 := by omega
  have hcpmu : (t.wpmMin + wj) * 5 ≤ 30000 := by omega
  simp only [Option.some_bind, Option.bind_eq_bind]
  rw [if_neg (by omega)]
  apply typePlanAux_isSome
  rw [Int.tdiv_eq_ediv (by norm_num) (by omega),
    Int.le_ediv_iff_mul_le (by omega)]
  omega

theorem scrollDownChunk_isSome (s : Scroller) (d : ScrollDraws) {cs : ℤ}
    (hcs : 2 ≤ cs) (hsp : s.speedMin ≤ s.speedMax) (i : ℕ) :
    (scrollDownChunk s d cs i).isSome := by
  unfold scrollDownChunk
  have h4 : cs.tdiv 4 = cs / 4 := Int.tdiv_eq_ediv (by omega) (by norm_num)
  have ht2 : 0 < cs.tdiv 2 := by
    rw [Int.tdiv_eq_ediv (by omega) (by norm_num)]
    omega
  obtain ⟨j, hj⟩ := Option.isSome_iff_exists.mp (intn_isSome ht2 (d.amtU i))
  obtain ⟨-, hj0, -⟩ := intn_eq_some hj
  rw [hj]
  have hspn : 0 < s.speedMax - s.speedMin + 1 := by omega
  obtain ⟨sp, hsp2⟩ :=
    Option.isSome_iff_exists.mp (intn_isSome hspn (d.speedU i))
  rw [hsp2]
  simp only [Option.some_bind, Option.bind_eq_bind]
  have hsa : 2 ≤ cs + j - cs.tdiv 4 := by
    rw [h4]
    omega
  split
  · have hsa2 : 0 < (cs + j - cs.tdiv 4).tdiv 2 := by
      rw [Int.tdiv_eq_ediv (by omega) (by norm_num)]
      omega
    obtain ⟨b, hb⟩ :=
      Option.isSome_iff_exists.mp (intn_isSome hsa2 (d.backAmtU i))
    rw [hb]
    simp
  · simp

theorem scrollUpChunk_isSome (s : Scroller) (d : ScrollDraws) {cs : ℤ}
    (hcs : 2 ≤ cs) (hsp : s.speedMin ≤ s.speedMax) (i : ℕ) :
    (scrollUpChunk s d cs i).isSome := by
  unfold scrollUpChunk
  have ht2 : 0 < cs.tdiv 2 := by
    rw [Int.tdiv_eq_ediv (by omega) (by norm_num)]
    omega
  obtain ⟨j, hj⟩ := Option.isSome_iff_exists.mp (intn_isSome ht2 (d.amtU i))
  rw [hj]
  have hspn : 0 < s.speedMax - s.speedMin + 1 := by omega
  obtain ⟨sp, hsp2⟩ :=
    Option.isSome_iff_exists.mp (intn_isSome hspn (d.speedU i))
  rw [hsp2]
  simp

theorem chunkSize_ge_two (d : ScrollDraws) {dist : ℤ} (hd : 28 ≤ dist) :
    2 ≤ dist.tdiv ((5 + (intnP 10 d.chunksU).toNat : ℕ) : ℤ) := by
  have hc := intnP_bounds (n := 10) (by norm_num) d.chunksU
  have htn : ((intnP 10 d.chunksU).toNat : ℤ) = intnP 10 d.chunksU :=
    Int.toNat_of_nonneg hc.1
  have hcast : ((5 + (intnP 10 d.chunksU).toNat : ℕ) : ℤ) =
      5 + intnP 10 d.chunksU := by
    push_cast
    omega
  rw [hcast, Int.tdiv_eq_ediv (by omega) (by omega),
    Int.le_ediv_iff_mul_le (by omega)]
  omega

theorem ScrollDown_isSome (s : Scroller) (d : ScrollDraws) (dist : ℤ)
    (hsp : s.speedMin ≤ s.speedMax) (hd : 28 ≤ dist) :
    (ScrollDown s d dist).isSome := by
  unfold ScrollDown
  exact mapM_isSome fun i _ =>
    scrollDownChunk_isSome s d (chunkSize_ge_two d hd) hsp i

theorem ScrollUp_isSome (s : Scroller) (d : ScrollDraws) (dist : ℤ)
    (hsp : s.speedMin ≤ s.speedMax) (hd : 28 ≤ dist) :
    (ScrollUp s d dist).isSome := by
  unfold ScrollUp
  exact mapM_isSome fun i _ =>
    scrollUpChunk_isSome s d (chunkSize_ge_two d hd) hsp i

theorem moveToPoint_isSome (fn : RealFns) (m : MouseMover) (d : MotionDraws)
    (s e : Point) (h : 1 ≤ m.bezierPoints) : (moveToPoint fn m d s e).isSome := by
  unfold moveToPoint generateBezierPath
  rw [if_neg (by omega)]
  simp

/-- Scroll draws that always produce the smallest value. -/
def d0S : ScrollDraws :=
  ⟨u0, fun _ => u0, fun _ => u0, fun _ => u0, fun _ => u0, fun _ => u0,
   fun _ => u0, fun _ => u0⟩

/-- The claim fails: `ScrollDown` at `totalDistance = 0` computes a
chunk size of 0 and calls `rand.Intn(0)`, which panics (modelled as
`none`) — the scroll planner is not total on small or zero
distances. -/
theorem C2_counterexample :
    ScrollDown (NewScroller 100 200 0 0) d0S 0 = none := by
  norm_num [ScrollDown, scrollDownChunk, NewScroller, d0S, intn, intnP, u0,
    mkU, Int.tdiv, (by decide : List.range 5 = [0, 1, 2, 3, 4]),
    List.mapM_cons, List.mapM_nil, List.mapM.loop]

/-- C2 (amended): path generation is total for every profile with at
least one control point; keystroke generation is total for valid
profiles whose wpm range stays within (0, 6000] (beyond 6000,
`msPerChar/2` reaches 0 and `rand.Intn` panics); scroll planning is
total when `speedMin ≤ speedMax` and the distance is at least 28 (so
every drawn chunk count in 5–14 gives a chunk size ≥ 2), but panics
for small or zero distances. -/
theorem C2_planner_totality :
    (∀ (fn : RealFns) (m : MouseMover) (d : MotionDraws) (s e : Point),
      1 ≤ m.bezierPoints → (moveToPoint fn m d s e).isSome = true) ∧
    (∀ (t : Typer) (d : TypingDraws) (text : List Char),
      1 ≤ t.wpmMin → t.wpmMin ≤ t.wpmMax → t.wpmMax ≤ 6000 →
      (typePlan t d text).isSome = true) ∧
    (∀ (s : Scroller) (d : ScrollDraws) (dist : ℤ),
      s.speedMin ≤ s.speedMax → 28 ≤ dist →
      (ScrollDown s d dist).isSome = true ∧
        (ScrollUp s d dist).isSome = true) :=
  ⟨fun fn m d s e h => moveToPoint_isSome fn m d s e h,
   fun t d text h1 h2 h3 => typePlan_isSome t d text h1 h2 h3,
   fun s d dist hsp hd =>
     ⟨ScrollDown_isSome s d dist hsp hd, ScrollUp_isSome s d dist hsp hd⟩⟩

/-- Witness for C2: the three planners succeed on concrete valid
inputs. -/
theorem C2_planner_totality_witness :
    (moveToPoint fn0 (NewMouseMover 2 0 0 0) d0M ⟨0, 0⟩ ⟨5, 5⟩).isSome = true ∧
    (typePlan (NewTyper 60 60 0 0) d0T ['a']).isSome = true ∧
    (ScrollDown (NewScroller 100 200 0 0) d0S 500).isSome = true ∧
    (ScrollUp (NewScroller 100 200 0 0) d0S 500).isSome = true :=
  ⟨C2_planner_totality.1 fn0 (NewMouseMover 2 0 0 0) d0M ⟨0, 0⟩ ⟨5, 5⟩
      (by norm_num [NewMouseMover]),
   C2_planner_totality.2.1 (NewTyper 60 60 0 0) d0T ['a']
      (by norm_num [NewTyper]) (by norm_num [NewTyper]) (by norm_num [NewTyper]),
   (C2_planner_totality.2.2 (NewScroller 100 200 0 0) d0S 500
      (by norm_num [NewScroller]) (by norm_num)).1,
   (C2_planner_totality.2.2 (NewScroller 100 200 0 0) d0S 500
      (by norm_num [NewScroller]) (by norm_num)).2⟩
